import Mathlib

/-!
# Verification of the `generic-btree` core engine

A shallow embedding of the B-tree engine of the `generic-btree` crate,
instantiated — as in the crate's own tests — at the default slab storage
(`src/slab.rs`, knuth order `M = 8`) holding key/value bindings with natural
number keys and values.  Each definition is translated from the corresponding
source item; panics and `unwrap` failures are modelled by `Option` (a `none`
result stands for a panic), and recursion over the node graph is made total
with an explicit fuel parameter.
-/

namespace GBT

/-- Decidable equality of `Except` results, used to evaluate the embedding on
concrete inputs. -/
instance {ε α : Type} [DecidableEq ε] [DecidableEq α] : DecidableEq (Except ε α) := fun x y =>
  match x, y with
  | .ok a, .ok b =>
    if h : a = b then .isTrue (by rw [h]) else .isFalse (by intro hh; cases hh; exact h rfl)
  | .error a, .error b =>
    if h : a = b then .isTrue (by rw [h]) else .isFalse (by intro hh; cases hh; exact h rfl)
  | .ok _, .error _ => .isFalse (by intro hh; cases hh)
  | .error _, .ok _ => .isFalse (by intro hh; cases hh)

/-- The knuth order of the default slab storage (`src/slab.rs`, `const M`). -/
def M : Nat := 8

/-- `Offset` (`src/btree/node/offset.rs`): a position inside one node, either
an index (`mk n`) or the "before-first" sentinel (represented by
`usize::MAX` in the source). -/
inductive Offset where
  | before
  | mk (n : Nat)
deriving DecidableEq, Repr

/-- `Offset::is_before`. -/
def Offset.isBefore : Offset → Bool
  | .before => true
  | .mk _ => false

/-- `Offset::value`: the integer value, or `none` for "before". -/
def Offset.value : Offset → Option Nat
  | .before => none
  | .mk n => some n

/-- `Offset::incr`: "before" becomes `0`, otherwise add one. -/
def Offset.incr : Offset → Offset
  | .before => .mk 0
  | .mk n => .mk (n + 1)

/-- `Offset::decr`: `0` becomes "before", "before" stays "before". -/
def Offset.decr : Offset → Offset
  | .before => .before
  | .mk 0 => .before
  | .mk (n + 1) => .mk n

/-- `impl Ord for Offset`: "before" sorts below every index. -/
def Offset.cmp : Offset → Offset → Ordering
  | .before, .before => .eq
  | .before, .mk _ => .lt
  | .mk _, .before => .gt
  | .mk a, .mk b => compare a b

/-- `impl PartialOrd<usize> for Offset`: "before" is less than any count. -/
def Offset.cmpNat : Offset → Nat → Ordering
  | .before, _ => .lt
  | .mk a, n => compare a n

/-- `offset < n` through `PartialOrd<usize>`. -/
def Offset.ltNat (o : Offset) (n : Nat) : Bool :=
  (o.cmpNat n).isLT

/-- `impl PartialEq<usize> for Offset`: "before" equals no integer. -/
def Offset.eqNat : Offset → Nat → Bool
  | .before, _ => false
  | .mk a, n => a == n

/-- `impl Add<usize> for Offset`.  For the "before" offset the source computes
`rhs - 1` on `usize`; the engine only ever uses `rhs = 1` there. -/
def Offset.addNat : Offset → Nat → Offset
  | .before, k => .mk (k - 1)
  | .mk n, k => .mk (n + k)

/-- `impl Sub<usize> for Offset`.  `none` models the `"offset underflow"`
panic.  The `rhs + 1 == self.0` branch of the source (returning the
"before" sentinel) is kept as written; it is unreachable because it is
only tested when `self.0 < rhs`. -/
def Offset.subNat : Offset → Nat → Option Offset
  | .before, _ => none
  | .mk n, k =>
    if n ≥ k then some (.mk (n - k))
    else if k + 1 = n then some .before
    else none

/-- `impl Sub for Offset`.  `mk n - before` panics (`rhs.0 + 1` overflows
`usize` in a debug build), modelled as `none`. -/
def Offset.sub : Offset → Offset → Option Offset
  | .before, .before => some (.mk 0)
  | .before, .mk _ => none
  | .mk _, .before => none
  | .mk n, .mk k =>
    if n ≥ k then some (.mk (n - k))
    else if k + 1 = n then some .before
    else none

/-- `impl Add for Offset`.  Both operands are index offsets in every use by
the engine (the binary search); `before + mk k` computes `mk k - 1` on
`usize` and `mk n + before` overflows, both modelled faithfully. -/
def Offset.add : Offset → Offset → Option Offset
  | .before, .before => none
  | .before, .mk k => (Offset.mk k).subNat 1
  | .mk _, .before => none
  | .mk n, .mk k => some (.mk (n + k))

/-- `impl Div<usize> for Offset`. -/
def Offset.divNat : Offset → Nat → Option Offset
  | .before, _ => none
  | .mk n, k => if k = 0 then none else some (.mk (n / k))

/-- Modelled from the spec: the source file `src/btree/node/addr.rs` defining
`Address` is not among the provided sources (only its users are).  Spec §3:
an address is a `(node_id, offset)` pair or the special value "nowhere",
used only for empty trees and iterator ends. -/
inductive Address where
  | nowhere
  | mk (id : Nat) (offset : Offset)
deriving DecidableEq, Repr

/-- `Address::is_nowhere`. -/
def Address.isNowhere : Address → Bool
  | .nowhere => true
  | .mk _ _ => false

/-- An item of the default slab map: a key/value `Binding` (`src/map/binding.rs`)
instantiated at `K = V = Nat`. -/
abbrev Item := Nat × Nat

/-- `KeyPartialOrd` of the slab map storage (`src/slab.rs`): compare the
binding's key with the probe key.  `Nat` keys are totally ordered, so the
partial comparison always succeeds. -/
def keyPartialCmp (it : Item) (key : Nat) : Option Ordering :=
  some (compare it.1 key)

/-- `KeyOrd`/`ItemOrd` of the slab map storage: compare two bindings by key. -/
def itemCmp (a b : Item) : Ordering :=
  compare a.1 b.1

/-- `Ordering::is_gt`. -/
def ordIsGT : Ordering → Bool
  | .gt => true
  | _ => false

/-- `Ordering::is_le`. -/
def ordIsLE : Ordering → Bool
  | .gt => false
  | _ => true

/-- `Ordering::is_eq`. -/
def ordIsEq : Ordering → Bool
  | .eq => true
  | _ => false

/-- `Ordering::is_lt`. -/
def ordIsLT : Ordering → Bool
  | .lt => true
  | _ => false

/-- A leaf node buffer (`src/slab/node/leaf.rs`): a parent link and the
stored items. -/
structure LeafNode where
  parent : Option Nat
  items : List Item
deriving DecidableEq, Repr

/-- An internal node buffer (`src/slab/node/internal.rs`): a parent link, the
first child id, and the branches, each pairing an item with its right
child id. -/
structure InternalNode where
  parent : Option Nat
  firstChild : Nat
  branches : List (Item × Nat)
deriving DecidableEq, Repr

/-- A node is a leaf or an internal node (`src/slab/node.rs`, `Node`;
`src/btree/node.rs`, `Desc`). -/
inductive Node where
  | leaf (node : LeafNode)
  | internal (node : InternalNode)
deriving DecidableEq, Repr

/-- `Reference::parent`. -/
def Node.parent : Node → Option Nat
  | .leaf l => l.parent
  | .internal nd => nd.parent

/-- `set_parent`. -/
def Node.setParent : Node → Option Nat → Node
  | .leaf l, p => .leaf { l with parent := p }
  | .internal nd, p => .internal { nd with parent := p }

/-- `Reference::item_count`. -/
def Node.itemCount : Node → Nat
  | .leaf l => l.items.length
  | .internal nd => nd.branches.length

/-- The items of a node in order (leaf items, or the branch items of an
internal node). -/
def Node.itemsList : Node → List Item
  | .leaf l => l.items
  | .internal nd => nd.branches.map (·.1)

/-- `InternalRef::child_id` on the slab internal node: index `0` is the first
child, index `i + 1` is the right child of branch `i`. -/
def InternalNode.childId (nd : InternalNode) (index : Nat) : Option Nat :=
  if index = 0 then some nd.firstChild
  else (nd.branches[index - 1]?).map (·.2)

/-- `InternalRef::child_count = item_count + 1`. -/
def InternalNode.childCount (nd : InternalNode) : Nat :=
  nd.branches.length + 1

/-- `Reference::child_id`: `none` on leaves. -/
def Node.childId : Node → Nat → Option Nat
  | .leaf _, _ => none
  | .internal nd, i => nd.childId i

/-- `Reference::child_count`: `0` on leaves. -/
def Node.childCount : Node → Nat
  | .leaf _ => 0
  | .internal nd => nd.childCount

/-- `InternalRef::child_index`: linear search for the child with the given
id, returning the first matching index. -/
def Node.childIndex : Node → Nat → Option Nat
  | .leaf _, _ => none
  | .internal nd, id => (List.range nd.childCount).find? (fun i => nd.childId i == some id)

/-- The children of a node in order (the `children()` iterator). -/
def InternalNode.childrenList (nd : InternalNode) : List Nat :=
  nd.firstChild :: nd.branches.map (·.2)

/-- The children of a node in order. -/
def Node.childrenList : Node → List Nat
  | .leaf _ => []
  | .internal nd => nd.childrenList

/-- `item(offset)` on a node.  The source unwraps the offset and indexes the
item vector, panicking on the "before" offset; the panic and an
out-of-bounds miss are both `none` here. -/
def Node.item : Node → Offset → Option Item
  | .leaf l, o => o.value.bind (fun n => l.items[n]?)
  | .internal nd, o => o.value.bind (fun n => (nd.branches[n]?).map (·.1))

/-- `max_capacity` of the slab nodes: `M` for internal nodes, `M + 1` for
leaves (`src/slab/node/internal.rs`, `src/slab/node/leaf.rs`). -/
def Node.maxCapacity : Node → Nat
  | .leaf _ => M + 1
  | .internal _ => M

/-- `min_capacity`: the default impls of `src/btree/node/leaf.rs`
(`(max_capacity - 1) / 2 - 1`) and `src/btree/node/internal.rs`
(`max_capacity / 2 - 1`). -/
def Node.minCapacity : Node → Nat
  | .leaf l => ((Node.leaf l).maxCapacity - 1) / 2 - 1
  | .internal nd => (Node.internal nd).maxCapacity / 2 - 1

/-- `is_overflowing`: `item_count ≥ max_capacity`. -/
def Node.isOverflowing (n : Node) : Bool :=
  n.itemCount ≥ n.maxCapacity

/-- `is_underflowing`: `item_count < min_capacity`. -/
def Node.isUnderflowing (n : Node) : Bool :=
  n.itemCount < n.minCapacity

/-- `Balance` (`src/btree/node/balance.rs`). -/
inductive Balance where
  | balanced
  | overflow
  | underflow (isEmpty : Bool)
deriving DecidableEq, Repr

/-- `Reference::balance`. -/
def Node.balance (n : Node) : Balance :=
  if n.isOverflowing then .overflow
  else if n.isUnderflowing then .underflow (n.itemCount == 0)
  else .balanced

/-- The dichotomy loop of `binary_search_min` (`src/util.rs`).  In the source
`i` and `j` are `Offset`s that always carry an index; the loop runs on the
underlying indices: while `j - i > 1`, probe `k = (i + j) / 2` and shrink
to the half keeping `items[i] ≤ key < items[j]`.  The distance `j - i`
strictly decreases at every turn, so with any fuel of at least `j - i`
this is exactly the source loop. -/
def bsmLoop (items : List Item) (key : Nat) : Nat → Nat → Nat → Nat
  | 0, i, _ => i
  | fuel + 1, i, j =>
    if j - i > 1 then
      let k := (i + j) / 2
      if ((keyPartialCmp (items.getD k (0, 0)) key).map ordIsGT).getD false then
        bsmLoop items key fuel i k
      else
        bsmLoop items key fuel k j
    else i

/-- `binary_search_min` (`src/util.rs`): search a sorted item list for the
item with the greatest key smaller than or equal to the probe key.
Returns `none` when the list is empty or its first item is greater than
the key; otherwise `(offset, eq)` where `eq` records key equality. -/
def binarySearchMin (items : List Item) (key : Nat) : Option (Offset × Bool) :=
  if items.isEmpty || ((keyPartialCmp (items.getD 0 (0, 0)) key).map ordIsGT).getD false then
    none
  else
    let j := items.length - 1
    let jItem := items.getD j (0, 0)
    if ((keyPartialCmp jItem key).map ordIsLE).getD false then
      some (.mk j, ((keyPartialCmp jItem key).map ordIsEq).getD false)
    else
      let i := bsmLoop items key j 0 j
      some (.mk i, ((keyPartialCmp (items.getD i (0, 0)) key).map ordIsEq).getD false)

/-- `LeafRef::offset_of` (`src/btree/node/leaf.rs`): `ok` on a key match,
otherwise `error` with the insertion offset. -/
def leafOffsetOf (items : List Item) (key : Nat) : Except Offset Offset :=
  match binarySearchMin items key with
  | some (i, true) => .ok i
  | some (i, false) => .error (i.addNat 1)
  | none => .error (.mk 0)

/-- `InternalRef::offset_of` (`src/btree/node/internal.rs`): `ok` on a key
match, otherwise `error` with the index and id of the child to descend
into.  The outer `none` models the `unwrap` panics. -/
def InternalNode.offsetOf (nd : InternalNode) (key : Nat) : Option (Except (Nat × Nat) Offset) :=
  match binarySearchMin (nd.branches.map (·.1)) key with
  | some (i, true) => some (.ok i)
  | some (i, false) =>
    match i.value with
    | none => none
    | some iv =>
      match nd.childId (1 + iv) with
      | none => none
      | some id => some (.error (1 + iv, id))
  | none => (nd.childId 0).map (fun id => .error (0, id))

/-- `Reference::offset_of` (`src/btree/node.rs`): `error (index, none)` for a
leaf, `error (index, some child_id)` for an internal node. -/
def Node.offsetOf : Node → Nat → Option (Except (Nat × Option Nat) Offset)
  | .leaf l, key =>
    match leafOffsetOf l.items key with
    | .ok i => some (.ok i)
    | .error idx => idx.value.map (fun n => .error (n, none))
  | .internal nd, key =>
    match nd.offsetOf key with
    | none => none
    | some (.ok i) => some (.ok i)
    | some (.error (ci, id)) => some (.error (ci, some id))

/-- `Reference::get` (`src/btree/node.rs`), built on `LeafConst::get` and
`InternalConst::get`: `ok` with the found item (or `none` in a leaf miss),
`error` with the child id to descend into. -/
def Node.getKey : Node → Nat → Option (Except Nat (Option Item))
  | .leaf l, key =>
    match binarySearchMin l.items key with
    | some (i, eq) =>
      match (Node.leaf l).item i with
      | none => none
      | some it => some (.ok (if eq then some it else none))
    | none => some (.ok none)
  | .internal nd, key =>
    match binarySearchMin (nd.branches.map (·.1)) key with
    | some (i, eq) =>
      match (Node.internal nd).item i with
      | none => none
      | some it =>
        if eq then some (.ok (some it))
        else
          match i.value with
          | none => none
          | some iv => (nd.childId (1 + iv)).map .error
    | none => (nd.childId 0).map .error

/-- `Reference::insert` (`src/btree/node.rs`): insert an item at an offset, a
right child id being mandatory for internal nodes.  `none` models the
panics (a "before" offset, an out-of-range offset, a missing right child
on an internal node). -/
def Node.insert (n : Node) (offset : Offset) (it : Item) (rightChildId : Option Nat) : Option Node :=
  match n, rightChildId with
  | .leaf l, _ =>
    match offset.value with
    | none => none
    | some idx =>
      if idx ≤ l.items.length then some (.leaf { l with items := l.items.insertIdx idx it })
      else none
  | .internal nd, some rc =>
    match offset.value with
    | none => none
    | some idx =>
      if idx ≤ nd.branches.length then
        some (.internal { nd with branches := nd.branches.insertIdx idx (it, rc) })
      else none
  | .internal _, none => none

/-- `Reference::remove` (`src/btree/node.rs`): remove the item at an offset,
returning it with the id of its right child in an internal node. -/
def Node.removeAtOffset (n : Node) (offset : Offset) : Option ((Item × Option Nat) × Node) :=
  match n, offset.value with
  | _, none => none
  | .leaf l, some idx =>
    (l.items[idx]?).map (fun it => ((it, none), .leaf { l with items := l.items.eraseIdx idx }))
  | .internal nd, some idx =>
    (nd.branches[idx]?).map (fun b =>
      ((b.1, some b.2), .internal { nd with branches := nd.branches.eraseIdx idx }))

/-- `Reference::replace` (`src/btree/node.rs`): swap the item at an offset,
returning the old item; an internal branch keeps its child id. -/
def Node.replaceItem (n : Node) (offset : Offset) (it : Item) : Option (Item × Node) :=
  match n, offset.value with
  | _, none => none
  | .leaf l, some idx =>
    (l.items[idx]?).map (fun old => (old, .leaf { l with items := l.items.set idx it }))
  | .internal nd, some idx =>
    (nd.branches[idx]?).map (fun b =>
      (b.1, .internal { nd with branches := nd.branches.set idx (it, b.2) }))

/-- `Reference::set_first_child`: panics when given a child for a leaf or no
child for an internal node. -/
def Node.setFirstChild : Node → Option Nat → Option Node
  | .internal nd, some id => some (.internal { nd with firstChild := id })
  | .internal _, none => none
  | .leaf l, none => some (.leaf l)
  | .leaf _, some _ => none

/-- `Reference::push_left`: insert at offset `0` handing the current first
child down as the right child, then install the new first child. -/
def Node.pushLeft (n : Node) (childId : Option Nat) (it : Item) : Option Node := do
  let n1 ← n.insert (.mk 0) it (n.childId 0)
  n1.setFirstChild childId

/-- `Reference::pop_left`: `error` is `WouldUnderflow`; otherwise the first
child id, the removed first item, and the shrunk node. -/
def Node.popLeft (n : Node) : Option (Except Unit (Option Nat × Item × Node)) :=
  if n.itemCount ≤ n.minCapacity then some (.error ())
  else do
    let firstChildId := n.childId 0
    let ((it, childId), n1) ← n.removeAtOffset (.mk 0)
    let n2 ← n1.setFirstChild childId
    some (.ok (firstChildId, it, n2))

/-- `Reference::push_right`: insert at offset `item_count`, returning that
offset. -/
def Node.pushRight (n : Node) (it : Item) (childId : Option Nat) : Option (Offset × Node) :=
  let offset := Offset.mk n.itemCount
  (n.insert offset it childId).map (fun n1 => (offset, n1))

/-- `Reference::pop_right`: `error` is `WouldUnderflow`; otherwise the offset
of the removed last item, the item, its right child id, and the node. -/
def Node.popRight (n : Node) : Option (Except Unit (Offset × Item × Option Nat × Node)) :=
  if n.itemCount ≤ n.minCapacity then some (.error ())
  else
    let offset := Offset.mk (n.itemCount - 1)
    (n.removeAtOffset offset).map (fun p => .ok (offset, p.1.1, p.1.2, p.2))

/-- `Reference::leaf_remove` (`src/btree/node.rs`): `some none` when the
offset holds no item; `some (error left_child_id)` in an internal node;
`some (ok (item, leaf'))` removes from a leaf.  The outer `none` models
the offset `unwrap` panics. -/
def Node.leafRemove (n : Node) (offset : Offset) : Option (Option (Except Nat (Item × LeafNode))) :=
  match n with
  | .internal nd =>
    if offset.ltNat nd.branches.length then
      match offset.value with
      | none => none
      | some idx => (InternalNode.childId nd idx).map (fun cid => some (.error cid))
    else some none
  | .leaf l =>
    if offset.ltNat l.items.length then
      match offset.value with
      | none => none
      | some idx =>
        (l.items[idx]?).map (fun it => some (.ok (it, { l with items := l.items.eraseIdx idx })))
    else some none

/-- `Reference::remove_rightmost_leaf`: an internal node redirects to its last
child; a leaf removes its last item (`remove_last`, which panics on an
empty leaf through the `item_count - 1` underflow). -/
def Node.removeRightmostLeaf (n : Node) : Option (Except Nat (Item × LeafNode)) :=
  match n with
  | .internal nd => (InternalNode.childId nd (nd.childCount - 1)).map .error
  | .leaf l =>
    match l.items[l.items.length - 1]? with
    | none => none
    | some it => some (.ok (it, { l with items := l.items.eraseIdx (l.items.length - 1) }))

/-- `LeafMut::split` (`src/btree/node/leaf.rs`): the items right of the median
index `(item_count - 1) / 2` move to a fresh right node inheriting the
parent link; the median is extracted; returns the remaining left node, its
length, the median and the right node.  The entry and exit `assert!`s are
kept as guards. -/
def LeafNode.split (l : LeafNode) : Option (LeafNode × Nat × Item × LeafNode) :=
  if !(Node.leaf l).isOverflowing then none
  else
    let medianI := (l.items.length - 1) / 2
    match l.items[medianI]? with
    | none => none
    | some median =>
      let leftNode : LeafNode := { l with items := l.items.take medianI }
      let rightNode : LeafNode := { parent := l.parent, items := l.items.drop (medianI + 1) }
      if (Node.leaf leftNode).isUnderflowing then none
      else some (leftNode, leftNode.items.length, median, rightNode)

/-- `InternalMut::split` (`src/btree/node/internal.rs`): like the leaf split;
the right child of the median branch becomes the first child of the new
right node. -/
def InternalNode.split (nd : InternalNode) : Option (InternalNode × Nat × Item × InternalNode) :=
  if !(Node.internal nd).isOverflowing then none
  else
    let medianI := (nd.branches.length - 1) / 2
    match nd.branches[medianI]? with
    | none => none
    | some medianBranch =>
      let leftNode : InternalNode := { nd with branches := nd.branches.take medianI }
      let rightNode : InternalNode :=
        { parent := nd.parent, firstChild := medianBranch.2,
          branches := nd.branches.drop (medianI + 1) }
      if (Node.internal leftNode).isUnderflowing then none
      else some (leftNode, leftNode.branches.length, medianBranch.1, rightNode)

/-- `Reference::split`. -/
def Node.split : Node → Option (Node × Nat × Item × Node)
  | .leaf l => (l.split).map (fun r => (.leaf r.1, r.2.1, r.2.2.1, .leaf r.2.2.2))
  | .internal nd => (nd.split).map (fun r => (.internal r.1, r.2.1, r.2.2.1, .internal r.2.2.2))

/-- `Reference::append`: append a separator and the contents of a same-kind
node, returning the offset of the separator; mixing kinds panics.  For
internal nodes the separator's right child is the first child of the
appended node. -/
def Node.append (n : Node) (sep : Item) (other : Node) : Option (Offset × Node) :=
  match n, other with
  | .leaf l, .leaf o =>
    some (.mk l.items.length, .leaf { l with items := l.items ++ sep :: o.items })
  | .internal nd, .internal o =>
    some (.mk nd.branches.length,
      .internal { nd with branches := nd.branches ++ (sep, o.firstChild) :: o.branches })
  | _, _ => none

/-- `Buffer::leaf` (`src/btree/node/buffer.rs`): a fresh single-item leaf. -/
def bufferLeaf (parent : Option Nat) (it : Item) : Node :=
  .leaf { parent := parent, items := [it] }

/-- `Buffer::binary` (`src/btree/node/buffer.rs`): a fresh internal node with
two children and one item. -/
def bufferBinary (parent : Option Nat) (leftChild : Nat) (it : Item) (rightChild : Nat) : Node :=
  .internal { parent := parent, firstChild := leftChild, branches := [(it, rightChild)] }

/-- The slab storage (`src/slab.rs`, `Storage`): the node arena, the root id
and the length.  The arena itself is the external `slab::Slab` consumed
through `cc_traits`; per the arena contract of spec §4.4 it is modelled as
an association list with a fresh-id counter (ids are stable until
released). -/
structure Storage where
  slab : List (Nat × Node)
  next : Nat
  root : Option Nat
  len : Nat
deriving DecidableEq, Repr

/-- The default (empty) storage. -/
def Storage.empty : Storage :=
  { slab := [], next := 0, root := none, len := 0 }

/-- `Storage::node`: fetch a node by id. -/
def Storage.node (s : Storage) (id : Nat) : Option Node :=
  (s.slab.find? (fun e => e.1 == id)).map (·.2)

/-- `Storage::is_empty`: the tree is empty iff it has no root. -/
def Storage.isEmpty (s : Storage) : Bool :=
  s.root.isNone

/-- `StorageMut::allocate_node` through the arena contract: a fresh stable id. -/
def Storage.allocateNode (s : Storage) (n : Node) : Nat × Storage :=
  (s.next, { s with slab := s.slab ++ [(s.next, n)], next := s.next + 1 })

/-- Overwrite the node stored under an id (a `node_mut` write-back). -/
def Storage.setNode (s : Storage) (id : Nat) (n : Node) : Storage :=
  { s with slab := s.slab.map (fun e => if e.1 == id then (id, n) else e) }

/-- `StorageMut::release_node`: remove and return the node; panics if the id
is unknown. -/
def Storage.releaseNode (s : Storage) (id : Nat) : Option (Node × Storage) :=
  match s.node id with
  | none => none
  | some n => some (n, { s with slab := s.slab.filter (fun e => e.1 != id) })

/-- `node_mut(id).set_parent(p)` as one step. -/
def Storage.setParentOf (s : Storage) (id : Nat) (p : Option Nat) : Option Storage :=
  (s.node id).map (fun n => s.setNode id (n.setParent p))

/-- `StorageMut::insert_node`: allocate the buffer, then re-home the parent
link of each of its children (the child count is taken from the buffer
before allocation, and the node is re-fetched at each step as in the
source loop). -/
def Storage.insertNode (s : Storage) (buf : Node) : Option (Nat × Storage) :=
  let p := s.allocateNode buf
  ((List.range buf.childCount).foldlM (fun (acc : Storage) i => do
      let nd ← acc.node p.1
      let childId ← nd.childId i
      let child ← acc.node childId
      some (acc.setNode childId (child.setParent (some p.1)))) p.2).map (fun s2 => (p.1, s2))

/-- `Storage::item`: the item at an address, if any. -/
def Storage.itemAt (s : Storage) (addr : Address) : Option Item :=
  match addr with
  | .nowhere => none
  | .mk id offset => (s.node id).bind (fun n => n.item offset)

/-- The descent of `Storage::first_item_address` and
`Storage::first_back_address`: walk down the first-child spine and stop at
`(id, 0)`.  Fuel-totalized; `none` is a panic or fuel exhaustion. -/
def Storage.firstAddressGo (s : Storage) : Nat → Nat → Option Address
  | 0, _ => none
  | fuel + 1, id => do
    let nd ← s.node id
    match nd.childId 0 with
    | some child => s.firstAddressGo fuel child
    | none => some (.mk id (.mk 0))

/-- `Storage::first_item_address`: `some none` on an empty tree. -/
def Storage.firstItemAddress (fuel : Nat) (s : Storage) : Option (Option Address) :=
  match s.root with
  | some id => (s.firstAddressGo fuel id).map some
  | none => some none

/-- `Storage::first_back_address`: "nowhere" on an empty tree. -/
def Storage.firstBackAddress (fuel : Nat) (s : Storage) : Option Address :=
  match s.root with
  | some id => s.firstAddressGo fuel id
  | none => some .nowhere

/-- The descent of `Storage::last_item_address`: follow the last child; in a
childless node return offset `item_count - 1` (whose `usize` subtraction
panics when the node is empty). -/
def Storage.lastItemAddressGo (s : Storage) : Nat → Nat → Option Address
  | 0, _ => none
  | fuel + 1, id => do
    let nd ← s.node id
    let index := nd.itemCount
    match nd.childId index with
    | some child => s.lastItemAddressGo fuel child
    | none =>
      match index with
      | 0 => none
      | k + 1 => some (.mk id (.mk k))

/-- `Storage::last_item_address`. -/
def Storage.lastItemAddress (fuel : Nat) (s : Storage) : Option (Option Address) :=
  match s.root with
  | some id => (s.lastItemAddressGo fuel id).map some
  | none => some none

/-- The descent of `Storage::last_valid_address`: follow the last child; in a
childless node return offset `item_count`. -/
def Storage.lastValidAddressGo (s : Storage) : Nat → Nat → Option Address
  | 0, _ => none
  | fuel + 1, id => do
    let nd ← s.node id
    let index := nd.itemCount
    match nd.childId index with
    | some child => s.lastValidAddressGo fuel child
    | none => some (.mk id (.mk index))

/-- `Storage::last_valid_address`: "nowhere" on an empty tree. -/
def Storage.lastValidAddress (fuel : Nat) (s : Storage) : Option Address :=
  match s.root with
  | some id => s.lastValidAddressGo fuel id
  | none => some .nowhere

/-- `child_index` of a child inside its parent, unwrapped (`none` panics). -/
def Storage.childIndexOf (s : Storage) (parentId childId : Nat) : Option Nat := do
  let p ← s.node parentId
  p.childIndex childId

/-- The climbing inner loop of `Storage::next_item_or_back_address`: return
the address once its offset sits on an item, otherwise climb to the
parent; past the root return the shifted original address. -/
def Storage.niobClimb (s : Storage) (orig : Address) : Nat → Nat → Offset → Option (Option Address)
  | 0, _, _ => none
  | fuel + 1, id, offset => do
    let nd ← s.node id
    if offset.ltNat nd.itemCount then some (some (.mk id offset))
    else
      match nd.parent with
      | some pid => do
        let idx ← s.childIndexOf pid id
        s.niobClimb orig fuel pid (.mk idx)
      | none => some (some orig)

/-- The descending outer loop of `Storage::next_item_or_back_address`: descend
into the child at the offset while one exists, then climb. -/
def Storage.niobDescend (s : Storage) (orig : Address) : Nat → Nat → Offset → Option (Option Address)
  | 0, _, _ => none
  | fuel + 1, id, offset => do
    let nd ← s.node id
    let ov ← offset.value
    match nd.childId ov with
    | some child => s.niobDescend orig fuel child (.mk 0)
    | none => s.niobClimb orig (fuel + 1) id offset

/-- `Storage::next_item_or_back_address` (`src/btree.rs`): `some none` is the
source's `None` (no such address), outer `none` a panic. -/
def Storage.nextItemOrBackAddress (fuel : Nat) (s : Storage) (addr : Address) : Option (Option Address) :=
  match addr with
  | .nowhere => some none
  | .mk id offset => do
    let nd ← s.node id
    match offset.cmpNat nd.itemCount with
    | .gt => some none
    | .lt => s.niobDescend (.mk id offset.incr) fuel id offset.incr
    | .eq => s.niobDescend (.mk id offset) fuel id offset

/-- The loop of `Storage::address_in`: descend by `offset_of` until a key
match (`ok`) or a leaf miss (`error` with the insertion address). -/
def Storage.addressIn (s : Storage) (key : Nat) : Nat → Nat → Option (Except Address Address)
  | 0, _ => none
  | fuel + 1, id => do
    let nd ← s.node id
    match ← nd.offsetOf key with
    | .ok offset => some (.ok (.mk id offset))
    | .error (offset, none) => some (.error (.mk id (.mk offset)))
    | .error (_, some child) => s.addressIn key fuel child

/-- `Storage::address_of`: `error nowhere` on an empty tree. -/
def Storage.addressOf (fuel : Nat) (s : Storage) (key : Nat) : Option (Except Address Address) :=
  match s.root with
  | some id => s.addressIn key fuel id
  | none => some (.error .nowhere)

/-- The loop of `Storage::get_in`: descend until the node-level `get` answers. -/
def Storage.getIn (s : Storage) (key : Nat) : Nat → Nat → Option (Option Item)
  | 0, _ => none
  | fuel + 1, id => do
    let nd ← s.node id
    match ← nd.getKey key with
    | .ok r => some r
    | .error child => s.getIn key fuel child

/-- `Storage::get`. -/
def Storage.get (fuel : Nat) (s : Storage) (key : Nat) : Option (Option Item) :=
  match s.root with
  | some id => s.getIn key fuel id
  | none => some none

/-- `StorageMut::try_rotate_left` (`src/btree.rs`): borrow the leftmost item
of the right sibling through the pivot parent item.  Returns the success
flag together with the updated address and storage; a failed rotation
leaves both untouched. -/
def Storage.tryRotateLeft (s : Storage) (id deficientChildIndex : Nat) (addr : Address) :
    Option (Bool × Address × Storage) := do
  let pivotOffset := Offset.mk deficientChildIndex
  let rightSiblingIndex := deficientChildIndex + 1
  let nd ← s.node id
  if rightSiblingIndex ≥ nd.childCount then some (false, addr, s)
  else do
    let rightSiblingId ← nd.childId rightSiblingIndex
    let deficientChildId ← nd.childId deficientChildIndex
    let rsNode ← s.node rightSiblingId
    match ← rsNode.popLeft with
    | .error _ => some (false, addr, s)
    | .ok (optChildId, value, rsNode1) =>
      let s1 := s.setNode rightSiblingId rsNode1
      let pnode ← s1.node id
      let (oldPivot, pnode1) ← pnode.replaceItem pivotOffset value
      let s2 := s1.setNode id pnode1
      let dNode ← s2.node deficientChildId
      let (leftOffset, dNode1) ← dNode.pushRight oldPivot optChildId
      let s3 := s2.setNode deficientChildId dNode1
      let s4 ←
        match optChildId with
        | some cid => s3.setParentOf cid (some deficientChildId)
        | none => some s3
      let addr1 :=
        match addr with
        | .nowhere => addr
        | .mk aid aoff =>
          if aid = rightSiblingId then
            if aoff.eqNat 0 then Address.mk id pivotOffset
            else Address.mk aid aoff.decr
          else if aid = id then
            if aoff = pivotOffset then Address.mk deficientChildId leftOffset else addr
          else addr
      some (true, addr1, s4)

/-- `StorageMut::try_rotate_right` (`src/btree.rs`): borrow the rightmost item
of the left sibling through the pivot parent item. -/
def Storage.tryRotateRight (s : Storage) (id deficientChildIndex : Nat) (addr : Address) :
    Option (Bool × Address × Storage) :=
  if deficientChildIndex > 0 then do
    let leftSiblingIndex := deficientChildIndex - 1
    let pivotOffset := Offset.mk leftSiblingIndex
    let nd ← s.node id
    let leftSiblingId ← nd.childId leftSiblingIndex
    let deficientChildId ← nd.childId deficientChildIndex
    let lsNode ← s.node leftSiblingId
    match ← lsNode.popRight with
    | .error _ => some (false, addr, s)
    | .ok (leftOffset, value, optChildId, lsNode1) =>
      let s1 := s.setNode leftSiblingId lsNode1
      let pnode ← s1.node id
      let (oldPivot, pnode1) ← pnode.replaceItem pivotOffset value
      let s2 := s1.setNode id pnode1
      let dNode ← s2.node deficientChildId
      let dNode1 ← dNode.pushLeft optChildId oldPivot
      let s3 := s2.setNode deficientChildId dNode1
      let s4 ←
        match optChildId with
        | some cid => s3.setParentOf cid (some deficientChildId)
        | none => some s3
      let addr1 :=
        match addr with
        | .nowhere => addr
        | .mk aid aoff =>
          if aid = deficientChildId then Address.mk aid aoff.incr
          else if aid = leftSiblingId then
            if aoff = leftOffset then Address.mk id pivotOffset else addr
          else if aid = id then
            if aoff = pivotOffset then Address.mk deficientChildId (.mk 0) else addr
          else addr
      some (true, addr1, s4)
  else some (false, addr, s)

/-- `StorageMut::merge` (`src/btree.rs`): merge the deficient child with its
left sibling when it has one (consuming the parent item left of it),
otherwise with its right sibling (consuming the parent item at its own
index); the right node of the pair is released, its children re-parented
to the surviving left node, and the parent's balance after the separator
removal is returned. -/
def Storage.merge (s : Storage) (id deficientChildIndex : Nat) (addr : Address) :
    Option ((Balance × Address) × Storage) := do
  let offset : Offset :=
    if deficientChildIndex > 0 then .mk (deficientChildIndex - 1)
    else .mk deficientChildIndex
  let nd ← s.node id
  let ov ← offset.value
  let leftId ← nd.childId ov
  let ((item, rightIdOpt), nd1) ← nd.removeAtOffset offset
  let rightId ← rightIdOpt
  let bal := nd1.balance
  let s1 := s.setNode id nd1
  let (rightNode, s2) ← s1.releaseNode rightId
  let s3 ← rightNode.childrenList.foldlM (fun (acc : Storage) cid =>
    acc.setParentOf cid (some leftId)) s2
  let lNode ← s3.node leftId
  let (leftOffset, lNode1) ← lNode.append item rightNode
  let s4 := s3.setNode leftId lNode1
  let addr1 ←
    match addr with
    | .nowhere => some addr
    | .mk aid aoff =>
      if aid = id then
        match aoff.cmp offset with
        | .eq => some (Address.mk leftId leftOffset)
        | .gt => some (Address.mk aid aoff.decr)
        | .lt => some addr
      else if aid = rightId then do
        let av ← aoff.value
        let lv ← leftOffset.value
        some (Address.mk leftId (.mk (av + lv + 1)))
      else some addr
  some ((bal, addr1), s4)

/-- One pass of the `StorageMut::rebalance` loop (`src/btree.rs`), carrying
the balance of the node under scrutiny: split on overflow (recursing at
the parent), rotate or merge on underflow (recursing at the parent after a
merge), collapse an empty root.  Every structural change rewrites the
tracked caller address as in the source. -/
def Storage.rebalanceGo (s : Storage) : Nat → Balance → Nat → Address → Option (Address × Storage)
  | 0, _, _, _ => none
  | fuel + 1, bal, id, addr =>
    match bal with
    | .balanced => some (addr, s)
    | .overflow => do
      let nd ← s.node id
      if nd.isUnderflowing then none
      else do
        let (leftNode, medianOffset, median, rightBuf) ← nd.split
        let s1 := s.setNode id leftNode
        let (rightId, s2) ← s1.insertNode rightBuf
        let ndAfter ← s2.node id
        match ndAfter.parent with
        | some parentId => do
          let pnode ← s2.node parentId
          let offsetIdx ← pnode.childIndex id
          let offset := Offset.mk offsetIdx
          let pnode1 ← pnode.insert offset median (some rightId)
          let s3 := s2.setNode parentId pnode1
          let addr1 ←
            match addr with
            | .nowhere => some addr
            | .mk aid aoff =>
              if aid = id then
                match aoff.cmpNat medianOffset with
                | .eq => some (Address.mk parentId offset)
                | .gt => do
                  let av ← aoff.value
                  some (Address.mk rightId (.mk (av - medianOffset - 1)))
                | .lt => some addr
              else if aid = parentId ∧ ¬ (aoff.cmp offset).isLT then
                some (Address.mk aid aoff.incr)
              else some addr
          s3.rebalanceGo fuel pnode1.balance parentId addr1
        | none => do
          let leftId := id
          let (rootId, s3) ← s2.insertNode (bufferBinary none leftId median rightId)
          let s4 := { s3 with root := some rootId }
          let s5 ← s4.setParentOf leftId (some rootId)
          let s6 ← s5.setParentOf rightId (some rootId)
          let addr1 ←
            match addr with
            | .nowhere => some addr
            | .mk aid aoff =>
              if aid = id then
                match aoff.cmpNat medianOffset with
                | .eq => some (Address.mk rootId (.mk 0))
                | .gt => do
                  let av ← aoff.value
                  some (Address.mk rightId (.mk (av - medianOffset - 1)))
                | .lt => some addr
              else some addr
          some (addr1, s6)
    | .underflow isEmpty => do
      let nd ← s.node id
      match nd.parent with
      | some parentId => do
        let index ← s.childIndexOf parentId id
        match ← s.tryRotateLeft parentId index addr with
        | (true, addr1, s1) => some (addr1, s1)
        | (false, _, _) =>
          match ← s.tryRotateRight parentId index addr with
          | (true, addr1, s1) => some (addr1, s1)
          | (false, _, _) => do
            let ((bal1, addr1), s1) ← s.merge parentId index addr
            s1.rebalanceGo fuel bal1 parentId addr1
      | none =>
        if isEmpty then do
          let s1 := { s with root := nd.childId 0 }
          match s1.root with
          | some rootId => do
            let rmut ← s1.node rootId
            let s2 := s1.setNode rootId (rmut.setParent none)
            let addr1 :=
              match addr with
              | .nowhere => addr
              | .mk aid _ =>
                if aid = id then Address.mk rootId (.mk rmut.itemCount) else addr
            let (_, s3) ← s2.releaseNode id
            some (addr1, s3)
          | none => do
            let (_, s3) ← s1.releaseNode id
            some (Address.nowhere, s3)
        else some (addr, s)

/-- `StorageMut::rebalance`: seed the loop with the balance of the starting
node. -/
def Storage.rebalance (fuel : Nat) (s : Storage) (id : Nat) (addr : Address) :
    Option (Address × Storage) := do
  let nd ← s.node id
  s.rebalanceGo fuel nd.balance id addr

/-- `StorageMut::insert_exactly_at` (`src/btree.rs`): at "nowhere" the tree
must be empty and a single-leaf root is created; at a node address the
tree must be non-empty and the item is placed then the node rebalanced;
the length is incremented in both cases. -/
def Storage.insertExactlyAt (fuel : Nat) (s : Storage) (addr : Address) (it : Item)
    (optRightId : Option Nat) : Option (Address × Storage) :=
  match addr with
  | .nowhere =>
    if s.isEmpty then
      match s.insertNode (bufferLeaf none it) with
      | none => none
      | some (id, s1) =>
        some (.mk id (.mk 0), { s1 with root := some id, len := s1.len + 1 })
    else none
  | .mk id offset =>
    if s.isEmpty then none
    else do
      let nd ← s.node id
      let nd1 ← nd.insert offset it optRightId
      let s1 := s.setNode id nd1
      let (addr1, s2) ← s1.rebalance fuel id (.mk id offset)
      some (addr1, { s2 with len := s2.len + 1 })

/-- `StorageMut::remove_rightmost_leaf_of` (`src/btree.rs`): descend along
`remove_rightmost_leaf` redirections to the rightmost leaf, remove its
last item, and return it with the leaf's id. -/
def Storage.removeRightmostLeafOf (s : Storage) : Nat → Nat → Option (Item × Nat × Storage)
  | 0, _ => none
  | fuel + 1, id => do
    let nd ← s.node id
    match nd.removeRightmostLeaf with
    | none => none
    | some (.ok (item, leaf1)) => some (item, id, s.setNode id (.leaf leaf1))
    | some (.error childId) => s.removeRightmostLeafOf fuel childId

/-- `StorageMut::remove_at` (`src/btree.rs`).  The source decrements the
length *before* inspecting the address, so a `None` return (`some none`
here) still leaves the length decremented; removal from a leaf rebalances
the leaf, removal from an internal node replaces the item with the one
removed from the rightmost leaf of its left subtree and rebalances that
leaf.  The length decrement on an empty tree is a `usize` underflow
panic. -/
def Storage.removeAt (fuel : Nat) (s : Storage) (addr : Address) :
    Option (Option (Item × Address) × Storage) :=
  match s.len with
  | 0 => none
  | n + 1 =>
    let s0 := { s with len := n }
    match addr with
    | .nowhere => none
    | .mk id offset => do
      let nd ← s0.node id
      match ← nd.leafRemove offset with
      | some (.ok (item, leaf1)) => do
        let s1 := s0.setNode id (.leaf leaf1)
        let (addr2, s2) ← s1.rebalance fuel id (.mk id offset)
        some (some (item, addr2), s2)
      | some (.error leftChildId) => do
        let newAddr ← (← s0.nextItemOrBackAddress fuel (.mk id offset))
        let (separator, leafId, s1) ← s0.removeRightmostLeafOf fuel leftChildId
        let nd1 ← s1.node id
        let (oldItem, nd2) ← nd1.replaceItem offset separator
        let s2 := s1.setNode id nd2
        let (addr2, s3) ← s2.rebalance fuel leafId newAddr
        some (some (oldItem, addr2), s3)
      | none => some (none, s0)

/-- `replace_at` through the map storage's `Replace` impl (`src/slab.rs`):
replace the value of the binding at the address, keeping its key, and
return the displaced value. -/
def Storage.replaceAtValue (s : Storage) (addr : Address) (v : Nat) : Option (Nat × Storage) :=
  match addr with
  | .nowhere => none
  | .mk id offset => do
    let nd ← s.node id
    let old ← nd.item offset
    let (_, nd1) ← nd.replaceItem offset (old.1, v)
    some (old.2, s.setNode id nd1)

/-- `StorageMut::insert` of the map storage (`src/btree.rs` with the
`Inserted(key, value)` item of `src/map.rs`): replace the value on a key
collision, returning the displaced value, otherwise allocate the binding
and insert it exactly at the miss address. -/
def Storage.insertKV (fuel : Nat) (s : Storage) (k v : Nat) : Option (Option Nat × Storage) :=
  match s.addressOf fuel k with
  | none => none
  | some (.ok addr) =>
    (s.replaceAtValue addr v).map (fun p => (some p.1, p.2))
  | some (.error addr) =>
    (s.insertExactlyAt fuel addr (k, v) none).map (fun p => (none, p.2))

/-- `ValidationError` (`src/btree.rs`). -/
inductive ValidationError where
  | missingNode (id : Nat)
  | notBalanced
  | wrongParent (id : Nat) (found expected : Option Nat)
  | overflow (id : Nat)
  | underflow (id : Nat)
  | unsortedNode (id : Nat)
  | unsortedFromLeft (id : Nat)
  | unsortedFromRight (id : Nat)
deriving DecidableEq, Repr

/-- The sortedness loop of `Reference::validate`: some adjacent pair has
`item[i] < item[i-1]`. -/
def unsortedPair : List Item → Bool
  | a :: b :: rest => ordIsLT (itemCmp b a) || unsortedPair (b :: rest)
  | _ => false

/-- The right-separator check of `Reference::validate`: the node's last item
must be strictly below the separator on its right. -/
def Node.validateMax (n : Node) (id : Nat) (mx : Option Item) : Except ValidationError Unit :=
  match mx, n.itemsList.getLast? with
  | some m, some last =>
    if ordIsLE (itemCmp m last) then .error (.unsortedFromRight id) else .ok ()
  | _, _ => .ok ()

/-- The node-local checks of `Reference::validate` (`src/btree/node.rs`):
parent linkage, balance (skipped at the root, recognized by the absence of
both separators), local sortedness, and the separator bounds. -/
def Node.validateLocal (n : Node) (id : Nat) (parent : Option Nat) (mn mx : Option Item) :
    Except ValidationError Unit :=
  if n.parent ≠ parent then .error (.wrongParent id n.parent parent)
  else
    match (if mn.isSome || mx.isSome then
             match n.balance with
             | .overflow => some (ValidationError.overflow id)
             | .underflow _ => some (ValidationError.underflow id)
             | .balanced => none
           else none) with
    | some e => .error e
    | none =>
      if unsortedPair n.itemsList then .error (.unsortedNode id)
      else
        match mn, n.itemsList.head? with
        | some m, some first =>
          if !ordIsLT (itemCmp m first) then .error (.unsortedFromLeft id)
          else n.validateMax id mx
        | _, _ => n.validateMax id mx

/-- The child loop of `Storage::validate_node`, abstracted over the validator
applied to each child: child `i` is validated against `separators(i)`,
falling back to the inherited bound when a separator is absent (the
inherited bound is `take`n in the source, so it is used at most once —
at child `0` for the lower bound and at the last child for the upper
bound), and all child depths must agree. -/
def validateKidsGen (validateChild : Nat → Option Item → Option Item → Option (Except ValidationError Nat))
    (nd : InternalNode) : Option Item → Option Item → List Nat → Option Nat →
    Option (Except ValidationError (Option Nat))
  | _, _, [], depth => some (.ok depth)
  | mn, mx, i :: rest, depth =>
    match nd.childId i with
    | none => none
    | some cid =>
      let cmin := if i > 0 then (Node.internal nd).item (.mk (i - 1)) else none
      let cmax := if i < nd.childCount then (Node.internal nd).item (.mk i) else none
      let mn1 := match cmin with | some x => some x | none => mn
      let mx1 := match cmax with | some x => some x | none => mx
      let mnRest := match cmin with | some _ => mn | none => none
      let mxRest := match cmax with | some _ => mx | none => none
      match validateChild cid mn1 mx1 with
      | none => none
      | some (.error e) => some (.error e)
      | some (.ok d) =>
        match depth with
        | none => validateKidsGen validateChild nd mnRest mxRest rest (some d)
        | some d0 =>
          if d0 ≠ d then some (.error .notBalanced)
          else validateKidsGen validateChild nd mnRest mxRest rest (some d0)

/-- `Storage::validate_node` (`src/btree.rs`): fetch the node (else
`MissingNode`), run the local checks, then validate every child against
its separators, requiring equal depths; returns the node's depth. -/
def Storage.validateNodeGo (s : Storage) : Nat → Nat → Option Nat → Option Item → Option Item →
    Option (Except ValidationError Nat)
  | 0, _, _, _, _ => none
  | fuel + 1, id, parent, mn, mx =>
    match s.node id with
    | none => some (.error (.missingNode id))
    | some nd =>
      match nd.validateLocal id parent mn mx with
      | .error e => some (.error e)
      | .ok _ =>
        match nd with
        | .leaf _ => some (.ok 0)
        | .internal ndi =>
          match validateKidsGen (fun cid mn1 mx1 => s.validateNodeGo fuel cid (some id) mn1 mx1)
              ndi mn mx (List.range ndi.childCount) none with
          | none => none
          | some (.error e) => some (.error e)
          | some (.ok none) => some (.ok 0)
          | some (.ok (some d)) => some (.ok (d + 1))

/-- `Storage::validate`: validate from the root; the empty tree is valid. -/
def Storage.validate (fuel : Nat) (s : Storage) : Option (Except ValidationError Unit) :=
  match s.root with
  | some id => (s.validateNodeGo fuel id none none none).map (·.map (fun _ => ()))
  | none => some (.ok ())

/-- The sum of the item counts over all nodes of the arena (spec invariant 7:
it must equal `len`). -/
def Storage.itemCountSum (s : Storage) : Nat :=
  (s.slab.map (fun e => e.2.itemCount)).sum

/-- The id-indexed key content of the arena: which keys every node holds. -/
def Storage.keySkeleton (s : Storage) : List (Nat × List Nat) :=
  s.slab.map (fun e => (e.1, e.2.itemsList.map (·.1)))

/-- A pure read of the rightmost leaf item reachable from a node: descend
along last children to the rightmost leaf and return its last item with
the leaf's id.  Used to state what `remove_rightmost_leaf_of` removes. -/
def Storage.rightmostItemIn (s : Storage) : Nat → Nat → Option (Item × Nat)
  | 0, _ => none
  | fuel + 1, id => do
    let nd ← s.node id
    match nd with
    | .internal ndi =>
      match InternalNode.childId ndi (ndi.childCount - 1) with
      | none => none
      | some c => s.rightmostItemIn fuel c
    | .leaf l => (l.items.getLast?).map (fun it => (it, id))

/-- `Bound<T>` of a range endpoint, at `Nat` keys. -/
inductive Bound where
  | included (k : Nat)
  | excluded (k : Nat)
  | unbounded
deriving DecidableEq, Repr

/-- `is_valid_range` (`src/btree/iter.rs`). -/
def isValidRange : Bound → Bound → Bool
  | .included s, .included e => s ≤ e
  | .included s, .excluded e => s ≤ e
  | .included _, .unbounded => true
  | .excluded s, .included e => s ≤ e
  | .excluded s, .excluded e => s < e
  | .excluded _, .unbounded => true
  | .unbounded, _ => true

/-- The start-address resolution of `Range::new` (`src/btree/iter.rs`):
`Included` takes the hit or miss address, `Excluded` the address after a
hit, `Unbounded` the first back address. -/
def Storage.rangeStartAddr (fuel : Nat) (s : Storage) (b : Bound) : Option Address :=
  match b with
  | .included k =>
    match s.addressOf fuel k with
    | none => none
    | some (.ok a) => some a
    | some (.error a) => some a
  | .excluded k =>
    match s.addressOf fuel k with
    | none => none
    | some (.ok a) =>
      match s.nextItemOrBackAddress fuel a with
      | some (some a1) => some a1
      | _ => none
    | some (.error a) => some a
  | .unbounded => s.firstBackAddress fuel

/-- The end-address resolution of `Range::new` (`src/btree/iter.rs`):
`Included` takes the address after a hit, `Excluded` the hit or miss
address, and `Unbounded` resolves to `first_back_address` (source line
412) — the same address the unbounded start resolves to. -/
def Storage.rangeEndAddr (fuel : Nat) (s : Storage) (b : Bound) : Option Address :=
  match b with
  | .included k =>
    match s.addressOf fuel k with
    | none => none
    | some (.ok a) =>
      match s.nextItemOrBackAddress fuel a with
      | some (some a1) => some a1
      | _ => none
    | some (.error a) => some a
  | .excluded k =>
    match s.addressOf fuel k with
    | none => none
    | some (.ok a) => some a
    | some (.error a) => some a
  | .unbounded => s.firstBackAddress fuel

/-- `Range::new`: panic (`none`) on an invalid range, otherwise the resolved
start and end addresses.  `RangeMut::new` computes the same pair. -/
def Storage.rangeNew (fuel : Nat) (s : Storage) (start stop : Bound) :
    Option (Address × Address) :=
  if !isValidRange start stop then none
  else do
    let a ← s.rangeStartAddr fuel start
    let e ← s.rangeEndAddr fuel stop
    some (a, e)

/-- The iteration of `Range::next`: emit items while the cursor differs from
the end address, advancing by `next_item_or_back_address`. -/
def Storage.rangeItemsGo (s : Storage) (fuel : Nat) : Nat → Address → Address → Option (List Item)
  | 0, a, e => if a = e then some [] else none
  | steps + 1, a, e =>
    if a = e then some []
    else
      match s.itemAt a with
      | none => none
      | some it =>
        match s.nextItemOrBackAddress fuel a with
        | some (some a1) => (s.rangeItemsGo fuel steps a1 e).map (fun l => it :: l)
        | _ => none

/-- Collect all items of `range(start, stop)`. -/
def Storage.rangeItems (fuel : Nat) (s : Storage) (start stop : Bound) : Option (List Item) :=
  match s.rangeNew fuel start stop with
  | none => none
  | some (a, e) => s.rangeItemsGo fuel fuel a e

/-- A one-item tree: a single root leaf holding the binding `(1, 10)`.  It is
the tree produced by inserting `(1, 10)` into the empty storage. -/
def oneItemTree : Storage :=
  { slab := [(0, .leaf { parent := none, items := [(1, 10)] })], next := 1, root := some 0, len := 1 }

/-- A two-item tree: a single root leaf holding `(1, 10)` and `(2, 20)`. -/
def twoItemTree : Storage :=
  { slab := [(0, .leaf { parent := none, items := [(1, 10), (2, 20)] })],
    next := 1, root := some 0, len := 2 }

/-- A three-level duplicate-key tree that passes `validate`: the root internal
node separates two balanced leaves, and the left leaf holds two items with
the equal key `3` (validation only requires non-decreasing items inside a
node). -/
def dupKeyTree : Storage :=
  { slab := [(0, .internal { parent := none, firstChild := 1, branches := [((5, 0), 2)] }),
             (1, .leaf { parent := some 0, items := [(1, 0), (2, 0), (3, 0), (3, 1)] }),
             (2, .leaf { parent := some 0, items := [(6, 0), (7, 0), (8, 0), (9, 0)] })],
    next := 3, root := some 0, len := 9 }

/-- `dupKeyTree` after `remove_at` of the root separator: the left leaf's old
maximum `(3, 1)` was moved up into the separator slot, violating the
strict separator bound against the remaining `(3, 0)`. -/
def dupKeyTreeAfter : Storage :=
  { slab := [(0, .internal { parent := none, firstChild := 1, branches := [((3, 1), 2)] }),
             (1, .leaf { parent := some 0, items := [(1, 0), (2, 0), (3, 0)] }),
             (2, .leaf { parent := some 0, items := [(6, 0), (7, 0), (8, 0), (9, 0)] })],
    next := 3, root := some 0, len := 8 }

/-- A distinct-key tree of the same shape as `dupKeyTree`, used to exhibit the
internal-node removal mechanism. -/
def mechTree : Storage :=
  { slab := [(0, .internal { parent := none, firstChild := 1, branches := [((5, 0), 2)] }),
             (1, .leaf { parent := some 0, items := [(1, 0), (2, 0), (3, 0), (4, 0)] }),
             (2, .leaf { parent := some 0, items := [(6, 0), (7, 0), (8, 0), (9, 0)] })],
    next := 3, root := some 0, len := 9 }

/-- `mechTree` after the rightmost item `(4, 0)` of its left leaf has been
removed and the length decremented (the intermediate state of `remove_at`
of the root separator). -/
def mechTreeMid : Storage :=
  { slab := [(0, .internal { parent := none, firstChild := 1, branches := [((5, 0), 2)] }),
             (1, .leaf { parent := some 0, items := [(1, 0), (2, 0), (3, 0)] }),
             (2, .leaf { parent := some 0, items := [(6, 0), (7, 0), (8, 0), (9, 0)] })],
    next := 3, root := some 0, len := 8 }

/-- `mechTree` after `remove_at` of the root separator `(5, 0)`: the left
subtree's rightmost leaf item `(4, 0)` replaced it. -/
def mechTreeAfter : Storage :=
  { slab := [(0, .internal { parent := none, firstChild := 1, branches := [((4, 0), 2)] }),
             (1, .leaf { parent := some 0, items := [(1, 0), (2, 0), (3, 0)] }),
             (2, .leaf { parent := some 0, items := [(6, 0), (7, 0), (8, 0), (9, 0)] })],
    next := 3, root := some 0, len := 8 }

/-- A three-level tree whose root has two internal children, each with two
leaf children; merging the root's children exercises the re-parenting of
the right node's children. -/
def mergeTree : Storage :=
  { slab := [(0, .internal { parent := none, firstChild := 1, branches := [((50, 0), 2)] }),
             (1, .internal { parent := some 0, firstChild := 3, branches := [((10, 0), 4)] }),
             (2, .internal { parent := some 0, firstChild := 5, branches := [((60, 0), 6)] }),
             (3, .leaf { parent := some 1, items := [(1, 0)] }),
             (4, .leaf { parent := some 1, items := [(20, 0)] }),
             (5, .leaf { parent := some 2, items := [(55, 0)] }),
             (6, .leaf { parent := some 2, items := [(70, 0)] })],
    next := 7, root := some 0, len := 7 }

/-! ## Helper lemmas on the arena -/

/-- Setting a parent twice is the same as setting it once. -/
lemma Node.setParent_setParent (n : Node) (p q : Option Nat) :
    (n.setParent p).setParent q = n.setParent q := by
  cases n <;> rfl

/-- Setting a parent sets the `parent` field. -/
lemma Node.parent_setParent (n : Node) (p : Option Nat) : (n.setParent p).parent = p := by
  cases n <;> rfl

lemma find?_map_setNode (l : List (Nat × Node)) (id : Nat) (n1 : Node) :
    (l.map (fun e => if e.1 == id then (id, n1) else e)).find? (fun e => e.1 == id) =
      (l.find? (fun e => e.1 == id)).map (fun _ => (id, n1)) := by
  induction l with
  | nil => rfl
  | cons e rest ih =>
    by_cases h : e.1 = id
    · have hf : (if (e.1 == id) = true then (id, n1) else e) = (id, n1) := by simp [h]
      have h1 : (((id, n1) : Nat × Node).1 == id) = true := by simp
      have h2 : (e.1 == id) = true := by simp [h]
      simp only [List.map_cons, hf]
      simp only [List.find?_cons]
      rw [h1, h2]
      rfl
    · have hf : (if (e.1 == id) = true then (id, n1) else e) = e := by simp [h]
      have h2 : (e.1 == id) = false := by simp [h]
      simp only [List.map_cons, hf]
      simp only [List.find?_cons]
      rw [h2]
      exact ih

lemma find?_map_setNode_ne (l : List (Nat × Node)) (id id' : Nat) (h : id' ≠ id) (n1 : Node) :
    (l.map (fun e => if e.1 == id then (id, n1) else e)).find? (fun e => e.1 == id') =
      l.find? (fun e => e.1 == id') := by
  induction l with
  | nil => rfl
  | cons e rest ih =>
    by_cases he : e.1 = id
    · have hf : (if (e.1 == id) = true then (id, n1) else e) = (id, n1) := by simp [he]
      have h1 : (((id, n1) : Nat × Node).1 == id') = false := by simp [Ne.symm h]
      have h2 : (e.1 == id') = false := by simp [he, Ne.symm h]
      simp only [List.map_cons, hf]
      simp only [List.find?_cons]
      rw [h1, h2]
      exact ih
    · have hf : (if (e.1 == id) = true then (id, n1) else e) = e := by simp [he]
      simp only [List.map_cons, hf]
      simp only [List.find?_cons]
      by_cases he' : e.1 = id'
      · rw [show (e.1 == id') = true by simp [he']]
      · rw [show (e.1 == id') = false by simp [he']]
        exact ih

lemma find?_filter_ne (l : List (Nat × Node)) (id id' : Nat) (h : id' ≠ id) :
    (l.filter (fun e => e.1 != id)).find? (fun e => e.1 == id') =
      l.find? (fun e => e.1 == id') := by
  induction l with
  | nil => rfl
  | cons e rest ih =>
    by_cases he : e.1 = id
    · have hf : (e.1 != id) = false := by simp [he]
      simp only [List.filter_cons, hf, if_false]
      have h2 : (e.1 == id') = false := by simp [he, Ne.symm h]
      conv_rhs => rw [List.find?_cons]
      rw [h2]
      exact ih
    · have hf : (e.1 != id) = true := by simp [he]
      simp only [List.filter_cons, hf, if_true]
      simp only [List.find?_cons]
      by_cases he' : e.1 = id'
      · rw [show (e.1 == id') = true by simp [he']]
      · rw [show (e.1 == id') = false by simp [he']]
        exact ih

lemma find?_filter_self (l : List (Nat × Node)) (id : Nat) :
    (l.filter (fun e => e.1 != id)).find? (fun e => e.1 == id) = none := by
  rw [List.find?_eq_none]
  intro e he
  rcases List.mem_filter.mp he with ⟨_, hne⟩
  simp only [bne_iff_ne, ne_eq] at hne
  simp [hne]

/-- How `setNode` affects node lookups. -/
lemma Storage.node_setNode (s : Storage) (id id' : Nat) (n1 : Node) :
    (s.setNode id n1).node id' =
      if id' = id then (s.node id').map (fun _ => n1) else s.node id' := by
  by_cases h : id' = id
  · subst h
    simp only [Storage.node, Storage.setNode, if_true, find?_map_setNode, Option.map_map]
    rfl
  · simp only [Storage.node, Storage.setNode, if_neg h, find?_map_setNode_ne _ _ _ h]

lemma Storage.setNode_len (s : Storage) (id : Nat) (n : Node) : (s.setNode id n).len = s.len := rfl

lemma Storage.setNode_root (s : Storage) (id : Nat) (n : Node) : (s.setNode id n).root = s.root := rfl

lemma Storage.setNode_next (s : Storage) (id : Nat) (n : Node) : (s.setNode id n).next = s.next := rfl

/-- How `releaseNode` affects node lookups and the tree-level fields. -/
lemma Storage.releaseNode_spec (s : Storage) (id : Nat) (nd : Node) (s' : Storage)
    (h : s.releaseNode id = some (nd, s')) :
    s.node id = some nd ∧ (∀ id', s'.node id' = if id' = id then none else s.node id') ∧
      s'.len = s.len ∧ s'.root = s.root ∧ s'.next = s.next := by
  unfold Storage.releaseNode at h
  cases hn : s.node id with
  | none => rw [hn] at h; cases h
  | some n =>
    rw [hn] at h
    cases h
    refine ⟨rfl, fun id' => ?_, rfl, rfl, rfl⟩
    by_cases hi : id' = id
    · subst hi
      simp only [if_true, Storage.node, find?_filter_self, Option.map_none']
    · simp only [if_neg hi, Storage.node, find?_filter_ne _ _ _ hi]

/-- `setParentOf` on a present node is a `setNode` of the re-parented node. -/
lemma Storage.setParentOf_spec (s : Storage) (id : Nat) (p : Option Nat) (nd : Node)
    (h : s.node id = some nd) :
    s.setParentOf id p = some (s.setNode id (nd.setParent p)) := by
  unfold Storage.setParentOf
  rw [h]
  rfl

/-- Folding `setParentOf` over a list of present children re-parents exactly
those nodes. -/
lemma foldl_setParent (pid : Nat) : ∀ (cs : List Nat) (s : Storage),
    (∀ c ∈ cs, (s.node c).isSome) →
    ∃ s', cs.foldlM (fun (acc : Storage) cid => acc.setParentOf cid (some pid)) s = some s' ∧
      (∀ id', s'.node id' =
        if id' ∈ cs then (s.node id').map (fun n => n.setParent (some pid)) else s.node id') ∧
      s'.len = s.len ∧ s'.root = s.root ∧ s'.next = s.next := by
  intro cs
  induction cs with
  | nil =>
    intro s _
    exact ⟨s, rfl, fun id' => by simp, rfl, rfl, rfl⟩
  | cons c rest ih =>
    intro s hpres
    have hc : (s.node c).isSome := hpres c (List.mem_cons_self c rest)
    cases hn : s.node c with
    | none => rw [hn] at hc; cases hc
    | some nc =>
      have hstep := Storage.setParentOf_spec s c (some pid) nc hn
      set s1 := s.setNode c (nc.setParent (some pid)) with hs1
      have hpres1 : ∀ c' ∈ rest, (s1.node c').isSome := by
        intro c' hc'
        rw [hs1, Storage.node_setNode]
        by_cases he : c' = c
        · subst he
          rw [if_pos rfl, hn]
          rfl
        · rw [if_neg he]
          exact hpres c' (List.mem_cons_of_mem _ hc')
      obtain ⟨s2, hfold, hchar, hlen, hroot, hnext⟩ := ih s1 hpres1
      refine ⟨s2, ?_, ?_, ?_, ?_, ?_⟩
      · simpa [List.foldlM, hstep] using hfold
      · intro id'
        rw [hchar id']
        by_cases hmem : id' ∈ rest
        · rw [if_pos hmem, if_pos (List.mem_cons_of_mem _ hmem), hs1, Storage.node_setNode]
          by_cases he : id' = c
          · subst he
            rw [if_pos rfl, hn]
            simp [Node.setParent_setParent]
          · rw [if_neg he]
        · rw [if_neg hmem, hs1, Storage.node_setNode]
          by_cases he : id' = c
          · subst he
            rw [if_pos rfl, if_pos (List.mem_cons_self _ _), hn]
            rfl
          · rw [if_neg he, if_neg (by simp [he, hmem])]
      · rw [hlen, hs1]; rfl
      · rw [hroot, hs1]; rfl
      · rw [hnext, hs1]; rfl

/-- Claim C1: reachable trees satisfy all structural invariants, in particular
`len() = Σ item counts` and `validate() = Ok`.  The code violates this:
inserting one item into the empty tree and then calling `remove_at` at the
(item-free) offset `1` of the root leaf returns `None` yet decrements the
length (`remove_at` calls `decr_len` before checking the address), leaving
a tree whose length is `0` while its only node holds one item — and
`validate` still answers `Ok`, since it never checks the length. -/
theorem remove_at_breaks_length_invariant :
    Storage.empty.insertKV 10 1 10 = some (none, oneItemTree) ∧
    oneItemTree.removeAt 10 (.mk 0 (.mk 1)) = some (none, { oneItemTree with len := 0 }) ∧
    ({ oneItemTree with len := 0 } : Storage).len = 0 ∧
    ({ oneItemTree with len := 0 } : Storage).itemCountSum = 1 ∧
    ({ oneItemTree with len := 0 } : Storage).validate 10 = some (.ok ()) := by
  refine ⟨?_, ?_, rfl, rfl, ?_⟩ <;> decide

/-- Claim C2: `remove_at` is claimed to leave the tree — including its
length — unchanged when it returns `None`.  The code decrements the length
first: on the one-item tree, `remove_at` at the item-free offset `1`
returns `None` but sets the length from `1` to `0` (the nodes are
untouched). -/
theorem remove_at_none_decrements_length :
    oneItemTree.itemAt (.mk 0 (.mk 1)) = none ∧
    oneItemTree.len = 1 ∧
    oneItemTree.removeAt 10 (.mk 0 (.mk 1)) = some (none, { oneItemTree with len := 0 }) := by
  refine ⟨rfl, rfl, ?_⟩
  decide

/-- Claim C3: an unbounded end endpoint is claimed to resolve to the last
valid address, making `range(..)` yield every item.  The code resolves the
unbounded end to `first_back_address` (src/btree/iter.rs line 412), the
same address as the unbounded start, so on the two-item tree the range
`(..)` is constructed with `start = end` and yields nothing. -/
theorem range_unbounded_end_yields_nothing :
    twoItemTree.len = 2 ∧
    twoItemTree.rangeNew 10 .unbounded .unbounded =
      some (.mk 0 (.mk 0), .mk 0 (.mk 0)) ∧
    twoItemTree.firstBackAddress 10 = some (.mk 0 (.mk 0)) ∧
    twoItemTree.lastValidAddress 10 = some (.mk 0 (.mk 2)) ∧
    twoItemTree.rangeItems 10 .unbounded .unbounded = some [] := by
  refine ⟨rfl, ?_, ?_, ?_, ?_⟩ <;> decide

/-- Claim C4 (counterexample): removing an internal-node item is claimed to
preserve the separator/sortedness invariant for every tree.  On the
validate-passing tree `dupKeyTree`, whose left leaf holds two items with
equal key, removing the root separator moves the left subtree's rightmost
leaf item `(3, 1)` up as the new separator, which is not strictly greater
than the remaining `(3, 0)`: `validate` then fails with
`UnsortedFromRight`. -/
theorem remove_at_internal_breaks_invariant5 :
    dupKeyTree.validate 20 = some (.ok ()) ∧
    dupKeyTree.node 0 =
      some (.internal { parent := none, firstChild := 1, branches := [((5, 0), 2)] }) ∧
    dupKeyTree.removeAt 20 (.mk 0 (.mk 0)) =
      some (some ((5, 0), .mk 2 (.mk 0)), dupKeyTreeAfter) ∧
    dupKeyTreeAfter.validate 20 = some (.error (.unsortedFromRight 1)) := by
  refine ⟨?_, rfl, ?_, ?_⟩ <;> decide

/-- Claim C5 (counterexample): the claim assigns a leaf the minimum capacity
`(M − 1) / 2 − 1 = 2`; the code computes `(max_capacity − 1) / 2 − 1` with
`max_capacity = M + 1`, which is `3` at `M = 8`. -/
theorem leaf_min_capacity_counterexample :
    (Node.leaf { parent := none, items := [] }).minCapacity = 3 ∧
    (M - 1) / 2 - 1 = 2 ∧
    (Node.leaf { parent := none, items := [] }).minCapacity ≠ (M - 1) / 2 - 1 := by
  decide

/-- Claim C5 (amended): at knuth order `M = 8`, every slab node has
`max_capacity` `M` (internal) or `M + 1` (leaf), and `min_capacity`
`M / 2 − 1` for an internal node and `(max_capacity − 1) / 2 − 1
= M / 2 − 1` for a leaf — both equal to `3`. -/
theorem slab_capacities :
    M = 8 ∧
    ∀ n : Node,
      (∀ l, n = .leaf l → n.maxCapacity = M + 1 ∧ n.minCapacity = (n.maxCapacity - 1) / 2 - 1) ∧
      (∀ nd, n = .internal nd → n.maxCapacity = M) ∧
      n.minCapacity = M / 2 - 1 := by
  refine ⟨rfl, fun n => ⟨fun l hl => ?_, fun nd hnd => ?_, ?_⟩⟩
  · subst hl; exact ⟨rfl, rfl⟩
  · subst hnd; rfl
  · cases n <;> rfl

/-- Claim C6: offset subtraction is claimed to wrap to the "before-first"
sentinel instead of overflowing: `mk n - (n + 1)` should be `before`.  The
code panics there: its wrap branch tests `rhs + 1 == self.0`, which can
never hold on the path where `self.0 < rhs` (at `n = 0, rhs = 1` and at
`n = 5, rhs = 6` the subtraction panics).  The decrement half of the
claim does hold. -/
theorem offset_sub_overflow_panics :
    (Offset.mk 0).decr = .before ∧
    Offset.before.decr = .before ∧
    Offset.subNat (.mk 0) 1 = none ∧
    Offset.subNat (.mk 5) 6 = none ∧
    Offset.subNat (.mk 5) 3 = some (.mk 2) := by
  decide

/-- Claim C8 (counterexample): `insert_exactly_at` is claimed to panic
*exactly* when the address is "nowhere" on a non-empty tree or a proper
address on an empty tree.  It also panics on a non-empty tree at a proper
address whose node id is unallocated (`node_mut(..).unwrap()`), as at id
`7` of the one-item tree. -/
theorem insert_exactly_at_panics_on_missing_node :
    oneItemTree.isEmpty = false ∧
    (Address.mk 7 (.mk 0)).isNowhere = false ∧
    oneItemTree.insertExactlyAt 5 (.mk 7 (.mk 0)) (2, 20) none = none := by
  decide

/-- Claim C8 (amended): `insert_exactly_at` at "nowhere" on an empty tree
allocates a single-leaf root holding exactly the given item, sets it as
the root, increments the length by one and returns the address
`(new root id, offset 0)`; it panics whenever the address is "nowhere" on
a non-empty tree or a proper address on an empty tree (further panics
exist, e.g. for an unallocated node id). -/
theorem insert_exactly_at_nowhere_spec (s : Storage) (it : Item) (fuel : Nat) :
    (s.root = none →
      s.insertExactlyAt fuel .nowhere it none =
        some (.mk s.next (.mk 0),
          { slab := s.slab ++ [(s.next, bufferLeaf none it)], next := s.next + 1,
            root := some s.next, len := s.len + 1 })) ∧
    (∀ rid, s.root.isSome → s.insertExactlyAt fuel .nowhere it rid = none) ∧
    (∀ id off rid, s.root = none → s.insertExactlyAt fuel (.mk id off) it rid = none) := by
  refine ⟨fun h => ?_, fun rid h => ?_, fun id off rid h => ?_⟩
  · have hemp : s.isEmpty = true := by simp [Storage.isEmpty, h]
    simp only [Storage.insertExactlyAt, hemp, if_true, Storage.insertNode,
      Storage.allocateNode, bufferLeaf, Node.childCount, List.range_zero, List.foldlM_nil]
    rfl
  · have hemp : s.isEmpty = false := by
      cases hr : s.root with
      | none => rw [hr] at h; cases h
      | some r => simp [Storage.isEmpty, hr]
    simp [Storage.insertExactlyAt, hemp]
  · have hemp : s.isEmpty = true := by simp [Storage.isEmpty, h]
    simp [Storage.insertExactlyAt, hemp]

/-- Witness for `insert_exactly_at_nowhere_spec` at the empty storage and the
one-item tree. -/
theorem insert_exactly_at_nowhere_spec_witness :
    (Storage.empty.insertExactlyAt 3 .nowhere (1, 10) none =
      some (.mk Storage.empty.next (.mk 0),
        { slab := Storage.empty.slab ++ [(Storage.empty.next, bufferLeaf none (1, 10))],
          next := Storage.empty.next + 1, root := some Storage.empty.next,
          len := Storage.empty.len + 1 })) ∧
    oneItemTree.insertExactlyAt 3 .nowhere (2, 20) (some 5) = none ∧
    Storage.empty.insertExactlyAt 3 (.mk 0 (.mk 0)) (1, 10) none = none :=
  ⟨(insert_exactly_at_nowhere_spec Storage.empty (1, 10) 3).1 rfl,
    (insert_exactly_at_nowhere_spec oneItemTree (2, 20) 3).2.1 (some 5) rfl,
    (insert_exactly_at_nowhere_spec Storage.empty (1, 10) 3).2.2 0 (.mk 0) none rfl⟩

/-- Claim C10: during rebalancing, `merge` merges the deficient child with its
left sibling when `i > 0` (consuming the parent item at offset `i - 1`),
otherwise with its right sibling (consuming the parent item at offset
`i`); the right node of the merged pair is released, all of its children
are re-parented to the surviving left node, and the returned balance is
the parent's balance after the separator removal. -/
theorem merge_spec (s : Storage) (p i off : Nat) (pn : InternalNode)
    (sep : Item) (leftId rightId : Nat) (rightNode lNode : Node)
    (hoff : off = if i > 0 then i - 1 else i)
    (hp : s.node p = some (.internal pn))
    (hbr : pn.branches[off]? = some (sep, rightId))
    (hleft : pn.childId off = some leftId)
    (hrp : rightId ≠ p) (hlr : leftId ≠ rightId) (hlp : leftId ≠ p)
    (hrn : s.node rightId = some rightNode)
    (hln : s.node leftId = some lNode)
    (hkids : ∀ c ∈ rightNode.childrenList, c ≠ rightId ∧ c ≠ p ∧ c ≠ leftId ∧ (s.node c).isSome)
    (hcompat : (∃ ll rl, lNode = Node.leaf ll ∧ rightNode = Node.leaf rl) ∨
               (∃ li ri, lNode = Node.internal li ∧ rightNode = Node.internal ri)) :
    ∃ s' : Storage,
      s.merge p i .nowhere =
        some (((Node.internal { pn with branches := pn.branches.eraseIdx off }).balance,
          Address.nowhere), s') ∧
      s'.node p = some (.internal { pn with branches := pn.branches.eraseIdx off }) ∧
      s'.node rightId = none ∧
      (∀ c ∈ rightNode.childrenList, (s'.node c).map Node.parent = some (some leftId)) ∧
      (s'.node leftId).map Node.itemsList = some (lNode.itemsList ++ sep :: rightNode.itemsList) ∧
      s'.len = s.len ∧ s'.root = s.root := by
  have hoffs : (if i > 0 then Offset.mk (i - 1) else Offset.mk i) = Offset.mk off := by
    rw [hoff]
    by_cases hi : i > 0 <;> simp [hi]
  have hrm : (Node.internal pn).removeAtOffset (Offset.mk off) =
      some ((sep, some rightId), .internal { pn with branches := pn.branches.eraseIdx off }) := by
    simp [Node.removeAtOffset, Offset.value, hbr]
  set nd1 : Node := .internal { pn with branches := pn.branches.eraseIdx off } with hnd1
  set s1 := s.setNode p nd1 with hs1
  have hs1n : ∀ id', s1.node id' = if id' = p then some nd1 else s.node id' := by
    intro id'
    rw [hs1, Storage.node_setNode]
    by_cases h : id' = p
    · subst h; rw [if_pos rfl, if_pos rfl, hp]; rfl
    · rw [if_neg h, if_neg h]
  have hrel : s1.releaseNode rightId =
      some (rightNode, { s1 with slab := s1.slab.filter (fun e => e.1 != rightId) }) := by
    unfold Storage.releaseNode
    rw [hs1n rightId, if_neg hrp, hrn]
  set s2 : Storage := { s1 with slab := s1.slab.filter (fun e => e.1 != rightId) } with hs2
  obtain ⟨-, hs2n, hs2len, hs2root, hs2next⟩ := Storage.releaseNode_spec s1 rightId rightNode s2 hrel
  have hpres : ∀ c ∈ rightNode.childrenList, (s2.node c).isSome := by
    intro c hc
    obtain ⟨h1, h2, -, h4⟩ := hkids c hc
    rw [hs2n c, if_neg h1, hs1n c, if_neg h2]
    exact h4
  obtain ⟨s3, hfold, hs3n, hs3len, hs3root, hs3next⟩ :=
    foldl_setParent leftId rightNode.childrenList s2 hpres
  have hnotmem : leftId ∉ rightNode.childrenList := fun hmem => (hkids leftId hmem).2.2.1 rfl
  have hpnotmem : p ∉ rightNode.childrenList := fun hmem => (hkids p hmem).2.1 rfl
  have hrnotmem : rightId ∉ rightNode.childrenList := fun hmem => (hkids rightId hmem).1 rfl
  have hs3left : s3.node leftId = some lNode := by
    rw [hs3n leftId, if_neg hnotmem, hs2n leftId, if_neg hlr, hs1n leftId, if_neg hlp, hln]
  have hs3p : s3.node p = some nd1 := by
    rw [hs3n p, if_neg hpnotmem, hs2n p, if_neg (Ne.symm hrp), hs1n p, if_pos rfl]
  have hs3r : s3.node rightId = none := by
    rw [hs3n rightId, if_neg hrnotmem, hs2n rightId, if_pos rfl]
  have hlenchain : s3.len = s.len := by
    rw [hs3len, hs2len, hs1, Storage.setNode_len]
  have hrootchain : s3.root = s.root := by
    rw [hs3root, hs2root, hs1, Storage.setNode_root]
  rcases hcompat with ⟨ll, rl, hl, hr⟩ | ⟨li, ri, hl, hr⟩
  · subst hl
    subst hr
    refine ⟨s3.setNode leftId (.leaf { ll with items := ll.items ++ sep :: rl.items }),
      ?_, ?_, ?_, ?_, ?_, ?_, ?_⟩
    · unfold Storage.merge
      rw [hoffs, hp]
      simp only [Option.bind_eq_bind, Option.some_bind, Offset.value, Node.childId]
      rw [hleft]
      simp only [Option.some_bind]
      rw [hrm]
      simp only [Option.some_bind]
      rw [← hs1, hrel]
      simp only [Option.some_bind]
      rw [hfold]
      simp only [Option.some_bind]
      rw [hs3left]
      simp only [Option.some_bind, Node.append]
    · rw [Storage.node_setNode, if_neg (Ne.symm hlp), hs3p]
    · rw [Storage.node_setNode, if_neg (Ne.symm hlr), hs3r]
    · intro c hc
      obtain ⟨h1, h2, h3, h4⟩ := hkids c hc
      obtain ⟨n, hn⟩ := Option.isSome_iff_exists.mp h4
      rw [Storage.node_setNode, if_neg h3, hs3n c, if_pos hc, hs2n c, if_neg h1,
        hs1n c, if_neg h2, hn]
      simp [Node.parent_setParent]
    · rw [Storage.node_setNode, if_pos rfl, hs3left]
      rfl
    · rw [Storage.setNode_len, hlenchain]
    · rw [Storage.setNode_root, hrootchain]
  · subst hl
    subst hr
    refine ⟨s3.setNode leftId
        (.internal { li with branches := li.branches ++ (sep, ri.firstChild) :: ri.branches }),
      ?_, ?_, ?_, ?_, ?_, ?_, ?_⟩
    · unfold Storage.merge
      rw [hoffs, hp]
      simp only [Option.bind_eq_bind, Option.some_bind, Offset.value, Node.childId]
      rw [hleft]
      simp only [Option.some_bind]
      rw [hrm]
      simp only [Option.some_bind]
      rw [← hs1, hrel]
      simp only [Option.some_bind]
      rw [hfold]
      simp only [Option.some_bind]
      rw [hs3left]
      simp only [Option.some_bind, Node.append]
    · rw [Storage.node_setNode, if_neg (Ne.symm hlp), hs3p]
    · rw [Storage.node_setNode, if_neg (Ne.symm hlr), hs3r]
    · intro c hc
      obtain ⟨h1, h2, h3, h4⟩ := hkids c hc
      obtain ⟨n, hn⟩ := Option.isSome_iff_exists.mp h4
      rw [Storage.node_setNode, if_neg h3, hs3n c, if_pos hc, hs2n c, if_neg h1,
        hs1n c, if_neg h2, hn]
      simp [Node.parent_setParent]
    · rw [Storage.node_setNode, if_pos rfl, hs3left]
      simp [Node.itemsList]
    · rw [Storage.setNode_len, hlenchain]
    · rw [Storage.setNode_root, hrootchain]

end GBT

namespace GBT

/-- Witness for `merge_spec`: merging the two internal children of
`mergeTree`'s root re-parents the right child's leaves to the left child
and releases node `2`. -/
theorem merge_spec_witness :
    ∃ s' : Storage,
      mergeTree.merge 0 0 Address.nowhere =
        some (((Node.internal { parent := none, firstChild := 1, branches := [] }).balance,
          Address.nowhere), s') ∧
      s'.node 0 = some (.internal { parent := none, firstChild := 1, branches := [] }) ∧
      s'.node 2 = none ∧
      (∀ c ∈ ([5, 6] : List Nat), (s'.node c).map Node.parent = some (some 1)) ∧
      (s'.node 1).map Node.itemsList = some ([(10, 0)] ++ (50, 0) :: [(60, 0)]) ∧
      s'.len = mergeTree.len ∧ s'.root = mergeTree.root :=
  merge_spec mergeTree 0 0 0 { parent := none, firstChild := 1, branches := [((50, 0), 2)] }
    (50, 0) 1 2 (.internal { parent := some 0, firstChild := 5, branches := [((60, 0), 6)] })
    (.internal { parent := some 0, firstChild := 3, branches := [((10, 0), 4)] })
    rfl (by decide) (by decide) (by decide) (by decide) (by decide) (by decide)
    (by decide) (by decide) (by decide)
    (Or.inr ⟨_, _, rfl, rfl⟩)

/-- An index offset below a bound passes the `lt` comparison with it. -/
lemma ltNat_true {o n : Nat} (h : o < n) : (Offset.mk o).ltNat n = true := by
  simp [Offset.ltNat, Offset.cmpNat, Nat.compare_eq_lt.mpr h, Ordering.isLT]

lemma getLast?_eq_idx (l : List Item) : l.getLast? = l[l.length - 1]? := by
  cases l with
  | nil => rfl
  | cons a as => rw [List.getLast?_eq_getElem?]

lemma removeRightmostLeafOf_spec (s : Storage) :
    ∀ (fuel id : Nat) (it : Item) (lid : Nat) (s1 : Storage),
      s.removeRightmostLeafOf fuel id = some (it, lid, s1) →
      s.rightmostItemIn fuel id = some (it, lid) ∧
      ∃ l : LeafNode, s.node lid = some (.leaf l) ∧
        s1 = s.setNode lid (.leaf { l with items := l.items.eraseIdx (l.items.length - 1) }) ∧
        l.items.getLast? = some it := by
  intro fuel
  induction fuel with
  | zero => intro id it lid s1 h; cases h
  | succ fuel ih =>
    intro id it lid s1 h
    cases hn : s.node id with
    | none =>
      simp only [Storage.removeRightmostLeafOf, hn, Option.bind_eq_bind, Option.none_bind] at h
      cases h
    | some nd =>
      cases nd with
      | internal ndi =>
        cases hc : InternalNode.childId ndi (ndi.childCount - 1) with
        | none =>
          simp only [Storage.removeRightmostLeafOf, hn, Option.bind_eq_bind, Option.some_bind,
            Node.removeRightmostLeaf, hc, Option.map_none'] at h
          cases h
        | some c =>
          simp only [Storage.removeRightmostLeafOf, hn, Option.bind_eq_bind, Option.some_bind,
            Node.removeRightmostLeaf, hc, Option.map_some'] at h
          have hres := ih c it lid s1 h
          refine ⟨?_, hres.2⟩
          simp only [Storage.rightmostItemIn, hn, Option.bind_eq_bind, Option.some_bind, hc]
          exact hres.1
      | leaf l =>
        cases hg : l.items[l.items.length - 1]? with
        | none =>
          simp only [Storage.removeRightmostLeafOf, hn, Option.bind_eq_bind, Option.some_bind,
            Node.removeRightmostLeaf, hg] at h
          cases h
        | some it0 =>
          simp only [Storage.removeRightmostLeafOf, hn, Option.bind_eq_bind, Option.some_bind,
            Node.removeRightmostLeaf, hg, Option.some.injEq, Prod.mk.injEq] at h
          obtain ⟨h1, h2, h3⟩ := h
          subst h1
          subst h2
          refine ⟨?_, l, hn, h3.symm, ?_⟩
          · simp only [Storage.rightmostItemIn, hn, Option.bind_eq_bind, Option.some_bind,
              getLast?_eq_idx, hg, Option.map_some']
          · rw [getLast?_eq_idx, hg]

/-- Claim C4 (amended, mechanism): `remove_at` at an item address located in an
internal node removes and returns the item stored there, replaces it in
place by the rightmost leaf item of the left subtree of the address (the
item the pure read `rightmostItemIn` sees), and produces the result of
rebalancing from that leaf at the shifted next address. -/
theorem remove_at_internal_mechanism
    (fuel : Nat) (s : Storage) (id o n : Nat) (nd : InternalNode)
    (br : Item × Nat) (lcid : Nat) (na : Address) (sep : Item) (leafId : Nat) (s1 : Storage)
    (addr2 : Address) (s3 : Storage)
    (hlen : s.len = n + 1)
    (hnode : s.node id = some (.internal nd))
    (hbr : nd.branches[o]? = some br)
    (hlc : nd.childId o = some lcid)
    (hna : ({ s with len := n } : Storage).nextItemOrBackAddress fuel (.mk id (.mk o)) =
      some (some na))
    (hrm : ({ s with len := n } : Storage).removeRightmostLeafOf fuel lcid =
      some (sep, leafId, s1))
    (hne : leafId ≠ id)
    (hreb : (s1.setNode id
        (.internal { nd with branches := nd.branches.set o (sep, br.2) })).rebalance
          fuel leafId na = some (addr2, s3)) :
    s.removeAt fuel (.mk id (.mk o)) = some (some (br.1, addr2), s3) ∧
    ({ s with len := n } : Storage).rightmostItemIn fuel lcid = some (sep, leafId) := by
  have hnode0 : ({ s with len := n } : Storage).node id = some (.internal nd) := hnode
  obtain ⟨hpure, l, hlid, hs1eq, hlast⟩ :=
    removeRightmostLeafOf_spec { s with len := n } fuel lcid sep leafId s1 hrm
  have hid2 : s1.node id = some (.internal nd) := by
    rw [hs1eq, Storage.node_setNode, if_neg (Ne.symm hne)]
    exact hnode0
  have ho : o < nd.branches.length := (List.getElem?_eq_some.mp hbr).1
  have hlt : (Offset.mk o).ltNat nd.branches.length = true := ltNat_true ho
  have hlr : (Node.internal nd).leafRemove (Offset.mk o) = some (some (.error lcid)) := by
    simp only [Node.leafRemove, hlt, if_true, Offset.value, hlc, Option.map_some']
  have hrepl : (Node.internal nd).replaceItem (Offset.mk o) sep =
      some (br.1, .internal { nd with branches := nd.branches.set o (sep, br.2) }) := by
    simp only [Node.replaceItem, Offset.value, hbr, Option.map_some']
  refine ⟨?_, hpure⟩
  unfold Storage.removeAt
  simp only [hlen]
  simp only [hnode0, Option.bind_eq_bind, Option.some_bind, hlr, hna, hrm, hid2, hrepl, hreb]

/-- Witness for `remove_at_internal_mechanism` on the distinct-key tree
`mechTree`: removing the root separator `(5, 0)` moves `(4, 0)` — the
rightmost leaf item of the left subtree — into its slot. -/
theorem remove_at_internal_mechanism_witness :
    mechTree.removeAt 20 (.mk 0 (.mk 0)) =
      some (some ((((5, 0), 2) : Item × Nat).1, Address.mk 2 (.mk 0)), mechTreeAfter) ∧
    ({ mechTree with len := 8 } : Storage).rightmostItemIn 20 1 = some ((4, 0), 1) :=
  remove_at_internal_mechanism 20 mechTree 0 0 8
    { parent := none, firstChild := 1, branches := [((5, 0), 2)] }
    ((5, 0), 2) 1 (Address.mk 2 (.mk 0)) (4, 0) 1 mechTreeMid (Address.mk 2 (.mk 0)) mechTreeAfter
    rfl (by decide) (by decide) (by decide) (by decide) (by decide) (by decide) (by decide)

/-- Every result offset of `binary_search_min` carries an index. -/
lemma bsm_mk (items : List Item) (key : Nat) (off : Offset) (eq : Bool)
    (h : binarySearchMin items key = some (off, eq)) : ∃ n, off = Offset.mk n := by
  unfold binarySearchMin at h
  split at h
  · cases h
  · dsimp only at h
    split at h
    · cases h
      exact ⟨_, rfl⟩
    · cases h
      exact ⟨_, rfl⟩

/-- A found item of the node-level `get` is found at the same offset by
`offset_of`. -/
lemma getKey_offsetOf_ok (nd : Node) (key : Nat) (it : Item)
    (h : nd.getKey key = some (.ok (some it))) :
    ∃ n : Nat, nd.offsetOf key = some (.ok (.mk n)) ∧ nd.item (.mk n) = some it := by
  cases nd with
  | leaf l =>
    cases hb : binarySearchMin l.items key with
    | none => simp [Node.getKey, hb] at h
    | some r =>
      obtain ⟨i, eq⟩ := r
      obtain ⟨n, rfl⟩ := bsm_mk l.items key i eq hb
      cases hit : (Node.leaf l).item (.mk n) with
      | none => simp [Node.getKey, hb, hit] at h
      | some it0 =>
        cases eq with
        | false => simp [Node.getKey, hb, hit] at h
        | true =>
          simp only [Node.getKey, hb, hit, if_true, Option.some.injEq, Except.ok.injEq] at h
          subst h
          refine ⟨n, ?_, hit⟩
          simp only [Node.offsetOf, leafOffsetOf, hb]
  | internal ndi =>
    cases hb : binarySearchMin (ndi.branches.map (·.1)) key with
    | none =>
      cases hc : InternalNode.childId ndi 0 with
      | none => simp [Node.getKey, hb, hc] at h
      | some c => simp [Node.getKey, hb, hc] at h
    | some r =>
      obtain ⟨i, eq⟩ := r
      obtain ⟨n, rfl⟩ := bsm_mk _ key i eq hb
      cases hit : (Node.internal ndi).item (.mk n) with
      | none => simp [Node.getKey, hb, hit] at h
      | some it0 =>
        cases eq with
        | false =>
          cases hc : InternalNode.childId ndi (1 + n) with
          | none => simp [Node.getKey, hb, hit, Offset.value, hc] at h
          | some c => simp [Node.getKey, hb, hit, Offset.value, hc] at h
        | true =>
          simp only [Node.getKey, hb, hit, if_true, Option.some.injEq, Except.ok.injEq] at h
          subst h
          refine ⟨n, ?_, hit⟩
          simp only [Node.offsetOf, InternalNode.offsetOf, hb]

/-- A descent of the node-level `get` is the same descent taken by
`offset_of`. -/
lemma getKey_offsetOf_err (nd : Node) (key : Nat) (child : Nat)
    (h : nd.getKey key = some (.error child)) :
    ∃ ci, nd.offsetOf key = some (.error (ci, some child)) := by
  cases nd with
  | leaf l =>
    exfalso
    cases hb : binarySearchMin l.items key with
    | none => simp [Node.getKey, hb] at h
    | some r =>
      obtain ⟨i, eq⟩ := r
      cases hit : (Node.leaf l).item i with
      | none => simp [Node.getKey, hb, hit] at h
      | some it0 => cases eq <;> simp [Node.getKey, hb, hit] at h
  | internal ndi =>
    cases hb : binarySearchMin (ndi.branches.map (·.1)) key with
    | none =>
      cases hc : InternalNode.childId ndi 0 with
      | none => simp [Node.getKey, hb, hc] at h
      | some c =>
        simp only [Node.getKey, hb, hc, Option.map_some', Option.some.injEq,
          Except.error.injEq] at h
        subst h
        refine ⟨0, ?_⟩
        simp only [Node.offsetOf, InternalNode.offsetOf, hb, hc, Option.map_some']
    | some r =>
      obtain ⟨i, eq⟩ := r
      obtain ⟨n, rfl⟩ := bsm_mk _ key i eq hb
      cases hit : (Node.internal ndi).item (.mk n) with
      | none => simp [Node.getKey, hb, hit] at h
      | some it0 =>
        cases eq with
        | true => simp [Node.getKey, hb, hit] at h
        | false =>
          cases hc : InternalNode.childId ndi (1 + n) with
          | none => simp [Node.getKey, hb, hit, Offset.value, hc] at h
          | some c =>
            simp only [Node.getKey, hb, hit, Offset.value, hc, Option.map_some'] at h
            rw [if_neg Bool.false_ne_true] at h
            simp only [Option.some.injEq, Except.error.injEq] at h
            subst h
            refine ⟨1 + n, ?_⟩
            simp only [Node.offsetOf, InternalNode.offsetOf, hb, Offset.value, hc,
              Option.map_some']

/-- When `get_in` finds an item, `address_in` answers with the address of that
very item: the two loops take the same path. -/
lemma getIn_addressIn (s : Storage) (key : Nat) :
    ∀ (fuel id : Nat) (it : Item), s.getIn key fuel id = some (some it) →
    ∃ (nid n : Nat) (nd : Node),
      s.addressIn key fuel id = some (.ok (.mk nid (.mk n))) ∧
      s.node nid = some nd ∧ nd.item (.mk n) = some it := by
  intro fuel
  induction fuel with
  | zero => intro id it h; cases h
  | succ fuel ih =>
    intro id it h
    cases hn : s.node id with
    | none => simp [Storage.getIn, hn] at h
    | some nd =>
      cases hk : nd.getKey key with
      | none => simp [Storage.getIn, hn, hk] at h
      | some r =>
        cases r with
        | ok v =>
          simp only [Storage.getIn, hn, hk, Option.bind_eq_bind, Option.some_bind,
            Option.some.injEq] at h
          subst h
          obtain ⟨n, hoff, hit⟩ := getKey_offsetOf_ok nd key it hk
          refine ⟨id, n, nd, ?_, hn, hit⟩
          simp only [Storage.addressIn, hn, Option.bind_eq_bind, Option.some_bind, hoff]
        | error child =>
          simp only [Storage.getIn, hn, hk, Option.bind_eq_bind, Option.some_bind] at h
          obtain ⟨nid, n, nd1, haddr, hnode1, hit1⟩ := ih child it h
          obtain ⟨ci, hoff⟩ := getKey_offsetOf_err nd key child hk
          refine ⟨nid, n, nd1, ?_, hnode1, hit1⟩
          simp only [Storage.addressIn, hn, Option.bind_eq_bind, Option.some_bind, hoff, haddr]

lemma map_subst_id (nid : Nat) (nd1 : Node) :
    ∀ (l : List (Nat × Node)), (∀ e ∈ l, e.1 ≠ nid) →
      l.map (fun e => if e.1 == nid then (nid, nd1) else e) = l := by
  intro l
  induction l with
  | nil => intro _; rfl
  | cons e rest ih =>
    intro hall
    have he : (e.1 == nid) = false := by
      simp [hall e (List.mem_cons_self e rest)]
    simp only [List.map_cons, he]
    rw [if_neg Bool.false_ne_true]
    rw [ih (fun e' he' => hall e' (List.mem_cons_of_mem _ he'))]

lemma keySkel_list (nid : Nat) (nd nd1 : Node)
    (hkeys : nd1.itemsList.map (·.1) = nd.itemsList.map (·.1)) :
    ∀ l : List (Nat × Node), (l.map (·.1)).Nodup →
      (l.find? (fun e => e.1 == nid)).map (·.2) = some nd →
      (l.map (fun e => if e.1 == nid then (nid, nd1) else e)).map
          (fun e => (e.1, e.2.itemsList.map (·.1))) =
        l.map (fun e => (e.1, e.2.itemsList.map (·.1))) := by
  intro l
  induction l with
  | nil => intro _ hfind; cases hfind
  | cons e rest ih =>
    intro hnodup hfind
    simp only [List.map_cons, List.nodup_cons] at hnodup
    by_cases he : e.1 = nid
    · have heb : (e.1 == nid) = true := by simp [he]
      simp only [List.find?_cons] at hfind
      rw [heb] at hfind
      simp only [Option.map_some', Option.some.injEq] at hfind
      have hrest : rest.map (fun e => if e.1 == nid then (nid, nd1) else e) = rest := by
        refine map_subst_id nid nd1 rest (fun e' he' hcontra => ?_)
        apply hnodup.1
        rw [he]
        exact hcontra ▸ List.mem_map_of_mem (·.1) he'
      simp only [List.map_cons, heb, if_true, hrest]
      congr 1
      simp [he, ← hfind, hkeys]
    · have heb : (e.1 == nid) = false := by simp [he]
      simp only [List.find?_cons] at hfind
      rw [heb] at hfind
      simp only [List.map_cons, heb]
      rw [if_neg Bool.false_ne_true]
      rw [ih hnodup.2 hfind]

/-- Overwriting a node with one holding the same keys leaves the key content
of the arena unchanged (on arenas without duplicate ids). -/
lemma keySkeleton_setNode (s : Storage) (nid : Nat) (nd nd1 : Node)
    (hnodup : (s.slab.map (·.1)).Nodup)
    (hfind : s.node nid = some nd)
    (hkeys : nd1.itemsList.map (·.1) = nd.itemsList.map (·.1)) :
    (s.setNode nid nd1).keySkeleton = s.keySkeleton :=
  keySkel_list nid nd nd1 hkeys s.slab hnodup hfind

lemma set_of_getElem? {α : Type} (a : α) :
    ∀ (l : List α) (n : Nat), l[n]? = some a → l.set n a = l := by
  intro l
  induction l with
  | nil => intro n h; cases h
  | cons x xs ih =>
    intro n h
    cases n with
    | zero =>
      simp only [List.getElem?_cons_zero, Option.some.injEq] at h
      simp [h]
    | succ m =>
      simp only [List.getElem?_cons_succ] at h
      simp [List.set, ih m h]

/-- Claim C9: inserting an item whose key is already present replaces the
stored binding's value in place (at the very address `address_of` finds),
returns the displaced value, and leaves the length, root, and the key
content of every node unchanged. -/
theorem insert_duplicate_replaces (fuel : Nat) (s : Storage) (k v : Nat) (it : Item)
    (hnodup : (s.slab.map (·.1)).Nodup)
    (h : s.get fuel k = some (some it)) :
    ∃ (nid noff : Nat) (s' : Storage),
      s.addressOf fuel k = some (.ok (.mk nid (.mk noff))) ∧
      s.insertKV fuel k v = some (some it.2, s') ∧
      s'.itemAt (.mk nid (.mk noff)) = some (it.1, v) ∧
      s'.len = s.len ∧ s'.root = s.root ∧ s'.keySkeleton = s.keySkeleton := by
  cases hr : s.root with
  | none => simp [Storage.get, hr] at h
  | some rid =>
    simp only [Storage.get, hr] at h
    obtain ⟨nid, n, nd, haddr, hnode, hitem⟩ := getIn_addressIn s k fuel rid it h
    have haddrOf : s.addressOf fuel k = some (.ok (.mk nid (.mk n))) := by
      simp only [Storage.addressOf, hr, haddr]
    have hrepl : ∃ nd1 : Node, nd.replaceItem (.mk n) (it.1, v) = some (it, nd1) ∧
        nd1.item (.mk n) = some (it.1, v) ∧
        nd1.itemsList.map (·.1) = nd.itemsList.map (·.1) := by
      cases nd with
      | leaf l =>
        have hg : l.items[n]? = some it := by
          simpa [Node.item, Offset.value] using hitem
        have hlt : n < l.items.length := (List.getElem?_eq_some.mp hg).1
        refine ⟨.leaf { l with items := l.items.set n (it.1, v) }, ?_, ?_, ?_⟩
        · simp [Node.replaceItem, Offset.value, hg]
        · simp [Node.item, Offset.value, List.getElem?_set_self hlt]
        · simp only [Node.itemsList, List.map_set]
          rw [set_of_getElem?]
          rw [List.getElem?_map, hg]
          rfl
      | internal ndi =>
        have hg' : (ndi.branches[n]?).map (·.1) = some it := by
          simpa [Node.item, Offset.value] using hitem
        obtain ⟨b, hb, hb1⟩ : ∃ b, ndi.branches[n]? = some b ∧ b.1 = it := by
          cases hbb : ndi.branches[n]? with
          | none => rw [hbb] at hg'; cases hg'
          | some b =>
            rw [hbb] at hg'
            exact ⟨b, rfl, by simpa using hg'⟩
        have hlt : n < ndi.branches.length := (List.getElem?_eq_some.mp hb).1
        refine ⟨.internal { ndi with branches := ndi.branches.set n ((it.1, v), b.2) }, ?_, ?_, ?_⟩
        · simp [Node.replaceItem, Offset.value, hb, hb1]
        · simp [Node.item, Offset.value, List.getElem?_set_self hlt]
        · simp only [Node.itemsList, List.map_set]
          rw [set_of_getElem?]
          rw [List.getElem?_map, List.getElem?_map, hb]
          simp [hb1]
    obtain ⟨nd1, hri, hni1, hkeys1⟩ := hrepl
    have hreplaceAt : s.replaceAtValue (.mk nid (.mk n)) v = some (it.2, s.setNode nid nd1) := by
      simp only [Storage.replaceAtValue, hnode, Option.bind_eq_bind, Option.some_bind, hitem, hri]
    refine ⟨nid, n, s.setNode nid nd1, haddrOf, ?_, ?_, rfl, by rw [Storage.setNode_root, hr], ?_⟩
    · simp only [Storage.insertKV, haddrOf, hreplaceAt, Option.map_some']
    · simp only [Storage.itemAt, Storage.node_setNode, if_pos rfl, hnode, Option.map_some',
        Option.bind_eq_bind, Option.some_bind]
      exact hni1
    · exact keySkeleton_setNode s nid nd nd1 hnodup hnode hkeys1

/-- Witness for `insert_duplicate_replaces`: replacing the value of key `1` of
the one-item tree. -/
theorem insert_duplicate_replaces_witness :
    (oneItemTree.slab.map (·.1)).Nodup ∧
    oneItemTree.get 3 1 = some (some (1, 10)) ∧
    (∃ (nid noff : Nat) (s' : Storage),
      oneItemTree.addressOf 3 1 = some (.ok (.mk nid (.mk noff))) ∧
      oneItemTree.insertKV 3 1 20 = some (some ((1, 10) : Item).2, s') ∧
      s'.itemAt (.mk nid (.mk noff)) = some (((1, 10) : Item).1, 20) ∧
      s'.len = oneItemTree.len ∧ s'.root = oneItemTree.root ∧
      s'.keySkeleton = oneItemTree.keySkeleton) :=
  ⟨by decide, by decide,
    insert_duplicate_replaces 3 oneItemTree 1 20 (1, 10) (by decide) (by decide)⟩


/-- The probe of the dichotomy: the comparison says "greater" exactly when the
key is below the item's key. -/
lemma probe_gt (it : Item) (key : Nat) :
    (((keyPartialCmp it key).map ordIsGT).getD false = true) ↔ key < it.1 := by
  show ordIsGT (compare it.1 key) = true ↔ key < it.1
  rcases h : compare it.1 key with _ | _ | _
  · have h2 := Nat.compare_eq_lt.mp h
    simp [ordIsGT]
    omega
  · have h2 := Nat.compare_eq_eq.mp h
    simp [ordIsGT]
    omega
  · have h2 := Nat.compare_eq_gt.mp h
    simp [ordIsGT]
    omega

/-- The comparison says "less or equal" exactly when the item's key is at most
the probe key. -/
lemma probe_le (it : Item) (key : Nat) :
    (((keyPartialCmp it key).map ordIsLE).getD false = true) ↔ it.1 ≤ key := by
  show ordIsLE (compare it.1 key) = true ↔ it.1 ≤ key
  rcases h : compare it.1 key with _ | _ | _
  · have h2 := Nat.compare_eq_lt.mp h
    simp [ordIsLE]
    omega
  · have h2 := Nat.compare_eq_eq.mp h
    simp [ordIsLE]
    omega
  · have h2 := Nat.compare_eq_gt.mp h
    simp [ordIsLE]
    omega

/-- The comparison says "equal" exactly when the keys agree. -/
lemma probe_eq (it : Item) (key : Nat) :
    (((keyPartialCmp it key).map ordIsEq).getD false = true) ↔ it.1 = key := by
  show ordIsEq (compare it.1 key) = true ↔ it.1 = key
  rcases h : compare it.1 key with _ | _ | _
  · have h2 := Nat.compare_eq_lt.mp h
    simp [ordIsEq]
    omega
  · have h2 := Nat.compare_eq_eq.mp h
    simp [ordIsEq]
    omega
  · have h2 := Nat.compare_eq_gt.mp h
    simp [ordIsEq]
    omega

/-- In a sorted item list the keys grow with the index. -/
lemma sorted_keys_mono (items : List Item)
    (hs : List.Sorted (fun a b : Item => a.1 ≤ b.1) items)
    (a b : Nat) (hab : a ≤ b) (hb : b < items.length) :
    (items.getD a (0, 0)).1 ≤ (items.getD b (0, 0)).1 := by
  rw [List.getD_eq_getElem _ _ (by omega), List.getD_eq_getElem _ _ hb]
  rcases Nat.eq_or_lt_of_le hab with h | h
  · subst h
    exact Nat.le_refl _
  · exact List.pairwise_iff_get.mp hs ⟨a, by omega⟩ ⟨b, hb⟩ h

/-- The dichotomy loop, run with enough fuel on a window satisfying
`items[i] ≤ key < items[j]`, lands on an index `r` of the window with
`items[r] ≤ key < items[r + 1]`. -/
lemma bsmLoop_spec (items : List Item) (key : Nat) :
    ∀ (fuel i j : Nat), i < j → j - i ≤ fuel → j < items.length →
      (items.getD i (0, 0)).1 ≤ key → key < (items.getD j (0, 0)).1 →
      i ≤ bsmLoop items key fuel i j ∧ bsmLoop items key fuel i j < j ∧
        (items.getD (bsmLoop items key fuel i j) (0, 0)).1 ≤ key ∧
        key < (items.getD (bsmLoop items key fuel i j + 1) (0, 0)).1 := by
  intro fuel
  induction fuel with
  | zero =>
    intro i j hij hf _ _ _
    omega
  | succ fuel ih =>
    intro i j hij hf hj hi hjgt
    have heq : bsmLoop items key (fuel + 1) i j =
        (if j - i > 1 then
          if ((keyPartialCmp (items.getD ((i + j) / 2) (0, 0)) key).map ordIsGT).getD false then
            bsmLoop items key fuel i ((i + j) / 2)
          else bsmLoop items key fuel ((i + j) / 2) j
        else i) := rfl
    by_cases hgap : j - i > 1
    · rw [heq, if_pos hgap]
      have hk1 : i < (i + j) / 2 := by omega
      have hk2 : (i + j) / 2 < j := by omega
      by_cases hprobe :
          ((keyPartialCmp (items.getD ((i + j) / 2) (0, 0)) key).map ordIsGT).getD false = true
      · rw [if_pos hprobe]
        have hlt := (probe_gt _ _).mp hprobe
        have h := ih i ((i + j) / 2) hk1 (by omega) (by omega) hi hlt
        exact ⟨h.1, by omega, h.2.2.1, h.2.2.2⟩
      · rw [if_neg hprobe]
        have hle : (items.getD ((i + j) / 2) (0, 0)).1 ≤ key :=
          Nat.le_of_not_lt (fun hc => hprobe ((probe_gt _ _).mpr hc))
        have h := ih ((i + j) / 2) j hk2 (by omega) hj hle hjgt
        exact ⟨by omega, h.2.1, h.2.2.1, h.2.2.2⟩
    · rw [heq, if_neg hgap]
      have hj1 : j = i + 1 := by omega
      subst hj1
      exact ⟨Nat.le_refl i, by omega, hi, hjgt⟩

/-- Claim C7: on a sorted item list, `binary_search_min` returns `none`
exactly when no item's key is smaller than or equal to the probe key, and
otherwise returns the greatest offset whose item's key is smaller than or
equal to the probe key together with a flag holding exactly on key
equality; consequently `offset_of` on an internal node descends into child
`i + 1` after a miss at offset `i`, and into child `0` when no item is
smaller than or equal to the key. -/
theorem binary_search_min_spec (items : List Item) (key : Nat)
    (hs : List.Sorted (fun a b : Item => a.1 ≤ b.1) items) :
    (binarySearchMin items key = none ↔ ∀ it ∈ items, key < it.1) ∧
    (∀ off eq, binarySearchMin items key = some (off, eq) → ∃ n, off = Offset.mk n) ∧
    (∀ n eq, binarySearchMin items key = some (.mk n, eq) →
      n < items.length ∧ (items.getD n (0, 0)).1 ≤ key ∧
      (∀ m, m < items.length → (items.getD m (0, 0)).1 ≤ key → m ≤ n) ∧
      (eq = true ↔ (items.getD n (0, 0)).1 = key)) ∧
    (∀ nd : InternalNode, nd.branches.map (fun br => br.1) = items →
      (binarySearchMin items key = none →
        nd.offsetOf key = some (.error (0, nd.firstChild))) ∧
      (∀ n, binarySearchMin items key = some (.mk n, false) →
        ∃ id, nd.childId (1 + n) = some id ∧
          nd.offsetOf key = some (.error (1 + n, id)))) := by
  have hmain :
      (binarySearchMin items key = none ↔ ∀ it ∈ items, key < it.1) ∧
      (∀ n eq, binarySearchMin items key = some (.mk n, eq) →
        n < items.length ∧ (items.getD n (0, 0)).1 ≤ key ∧
        (∀ m, m < items.length → (items.getD m (0, 0)).1 ≤ key → m ≤ n) ∧
        (eq = true ↔ (items.getD n (0, 0)).1 = key)) := by
    by_cases h0 :
        (items.isEmpty || ((keyPartialCmp (items.getD 0 (0, 0)) key).map ordIsGT).getD false) = true
    · have hres : binarySearchMin items key = none := by
        unfold binarySearchMin
        rw [if_pos h0]
      constructor
      · rw [hres]
        simp only [true_iff]
        intro it hit
        rcases (Bool.or_eq_true _ _).mp h0 with hemp | hgt
        · rw [List.isEmpty_iff.mp hemp] at hit
          cases hit
        · have hklt := (probe_gt _ _).mp hgt
          rcases List.mem_iff_getElem.mp hit with ⟨m, hm, hitm⟩
          have h0m : (items.getD 0 (0, 0)).1 ≤ (items.getD m (0, 0)).1 :=
            sorted_keys_mono items hs 0 m (Nat.zero_le m) hm
          rw [List.getD_eq_getElem _ _ hm, hitm] at h0m
          omega
      · intro n eq h
        rw [hres] at h
        exact Option.noConfusion h
    · have h0' := h0
      simp only [Bool.or_eq_true, not_or, Bool.not_eq_true] at h0'
      have hlen : 0 < items.length := by
        cases hitems : items with
        | nil =>
          rw [hitems] at h0'
          simp at h0'
        | cons a l => simp
      have h0le : (items.getD 0 (0, 0)).1 ≤ key := by
        have hiff := probe_gt (items.getD 0 (0, 0)) key
        rw [h0'.2] at hiff
        have hnlt : ¬ key < (items.getD 0 (0, 0)).1 :=
          fun hc => Bool.false_ne_true (hiff.mpr hc)
        omega
      have h0mem : items.getD 0 (0, 0) ∈ items := by
        rw [List.getD_eq_getElem _ _ hlen]
        exact List.getElem_mem hlen
      have hres : binarySearchMin items key =
          (if ((keyPartialCmp (items.getD (items.length - 1) (0, 0)) key).map ordIsLE).getD false then
            some (.mk (items.length - 1),
              ((keyPartialCmp (items.getD (items.length - 1) (0, 0)) key).map ordIsEq).getD false)
          else
            some (.mk (bsmLoop items key (items.length - 1) 0 (items.length - 1)),
              ((keyPartialCmp
                (items.getD (bsmLoop items key (items.length - 1) 0 (items.length - 1)) (0, 0))
                key).map ordIsEq).getD false)) := by
        unfold binarySearchMin
        rw [if_neg h0]
      by_cases hle :
          ((keyPartialCmp (items.getD (items.length - 1) (0, 0)) key).map ordIsLE).getD false = true
      · rw [if_pos hle] at hres
        have hjle := (probe_le _ _).mp hle
        constructor
        · rw [hres]
          constructor
          · intro h
            exact Option.noConfusion h
          · intro hall
            exfalso
            have := hall _ h0mem
            omega
        · intro n eq h
          rw [hres] at h
          simp only [Option.some.injEq, Prod.mk.injEq, Offset.mk.injEq] at h
          obtain ⟨hn, heqb⟩ := h
          subst hn
          subst heqb
          refine ⟨by omega, hjle, ?_, probe_eq _ _⟩
          intro m hm _
          omega
      · rw [if_neg hle] at hres
        have hjgt : key < (items.getD (items.length - 1) (0, 0)).1 := by
          have hiff := probe_le (items.getD (items.length - 1) (0, 0)) key
          have hnle : ¬ (items.getD (items.length - 1) (0, 0)).1 ≤ key :=
            fun hc => hle (hiff.mpr hc)
          omega
        have hjpos : 0 < items.length - 1 := by
          by_contra hc
          have h1 : items.length - 1 = 0 := by omega
          rw [h1] at hjgt
          omega
        obtain ⟨hr0, hrlt, hrle, hrgt⟩ := bsmLoop_spec items key (items.length - 1) 0
          (items.length - 1) hjpos (by omega) (by omega) h0le hjgt
        constructor
        · rw [hres]
          constructor
          · intro h
            exact Option.noConfusion h
          · intro hall
            exfalso
            have := hall _ h0mem
            omega
        · intro n eq h
          rw [hres] at h
          simp only [Option.some.injEq, Prod.mk.injEq, Offset.mk.injEq] at h
          obtain ⟨hn, heqb⟩ := h
          subst hn
          subst heqb
          refine ⟨by omega, hrle, ?_, probe_eq _ _⟩
          intro m hm hmle
          by_contra hc
          have hsm := sorted_keys_mono items hs
            (bsmLoop items key (items.length - 1) 0 (items.length - 1) + 1) m (by omega) hm
          omega
  refine ⟨hmain.1, fun off eq h => bsm_mk items key off eq h, hmain.2, ?_⟩
  intro nd heq
  constructor
  · intro hnone
    simp only [InternalNode.offsetOf, heq, hnone]
    simp [InternalNode.childId]
  · intro n hmiss
    have hlen2 : nd.branches.length = items.length := by
      rw [← heq, List.length_map]
    have hn := (hmain.2 n false hmiss).1
    have hchild : nd.childId (1 + n) = some (nd.branches.get ⟨n, by omega⟩).2 := by
      simp only [InternalNode.childId]
      rw [if_neg (show ¬ 1 + n = 0 by omega)]
      have h1 : 1 + n - 1 = n := by omega
      rw [h1, List.getElem?_eq_getElem (show n < nd.branches.length by omega)]
      rfl
    refine ⟨(nd.branches.get ⟨n, by omega⟩).2, hchild, ?_⟩
    simp only [InternalNode.offsetOf, heq, hmiss, Offset.value, hchild]

/-- Witness for `binary_search_min_spec`: the two-item list
`[(1, 10), (3, 30)]` probed at key `2`. -/
theorem binary_search_min_spec_witness :
    List.Sorted (fun a b : Item => a.1 ≤ b.1) [(1, 10), (3, 30)] ∧
    ((binarySearchMin [(1, 10), (3, 30)] 2 = none ↔
        ∀ it ∈ ([(1, 10), (3, 30)] : List Item), 2 < it.1) ∧
      (∀ off eq, binarySearchMin [(1, 10), (3, 30)] 2 = some (off, eq) →
        ∃ n, off = Offset.mk n) ∧
      (∀ n eq, binarySearchMin [(1, 10), (3, 30)] 2 = some (.mk n, eq) →
        n < ([(1, 10), (3, 30)] : List Item).length ∧
        (([(1, 10), (3, 30)] : List Item).getD n (0, 0)).1 ≤ 2 ∧
        (∀ m, m < ([(1, 10), (3, 30)] : List Item).length →
          (([(1, 10), (3, 30)] : List Item).getD m (0, 0)).1 ≤ 2 → m ≤ n) ∧
        (eq = true ↔ (([(1, 10), (3, 30)] : List Item).getD n (0, 0)).1 = 2)) ∧
      (∀ nd : InternalNode, nd.branches.map (fun br => br.1) = [(1, 10), (3, 30)] →
        (binarySearchMin [(1, 10), (3, 30)] 2 = none →
          nd.offsetOf 2 = some (.error (0, nd.firstChild))) ∧
        (∀ n, binarySearchMin [(1, 10), (3, 30)] 2 = some (.mk n, false) →
          ∃ id, nd.childId (1 + n) = some id ∧
            nd.offsetOf 2 = some (.error (1 + n, id))))) :=
  ⟨by decide, binary_search_min_spec [(1, 10), (3, 30)] 2 (by decide)⟩

end GBT
